import Mathlib

/-!
Verification development for the ScriptoAI legacy-code-analyzer server.

This file gives a shallow embedding, in Lean 4, of the behavioural core of
the repository:

* the data model (`Issue`, `AnalysisResult`, `AnalysisJob`) from
  `shared/schema` and `server/analyzer.ts`;
* the in-memory job store (`MemStorage`: `createJob`, `getJob`,
  `updateJobStatus`) from the storage module;
* the HTTP handlers of `server/routes.ts` that touch the store
  (`POST /api/analyze` validation + job creation, `POST /api/callback`,
  and the fire-and-forget pipeline completion branch);
* the pure aggregation core of `analyzeCode` (language buckets, quick-mode
  filtering, issue counting);
* the retry helper `retryWithBackoff` and its call sites;
* the refactorer `refactorFileWithGemini` / `refactorFiles`;
* `generateJSON` (`JSON.stringify(result, null, 2)`) together with a model
  of `JSON.parse` restricted to the fragment of JSON that `generateJSON`
  emits (strings, integer numbers, arrays, objects).

Effects that are external to the program (clock readings, generated ids,
AI-provider responses, file contents) are passed in as explicit parameters,
so every definition is executable.  Timestamps (`new Date().toISOString()`)
are modelled as naturals: ISO-8601 strings of the same format compare
lexicographically exactly as their instants compare, so the numeric model
preserves every ordering fact stated about them.
-/

/-- Severity taxonomy of `Issue` (`"critical" | "major" | "minor"`). -/
inductive Severity where
  | critical
  | major
  | minor
deriving DecidableEq

/-- An analyzer issue, as in the `Issue` interface of `server/analyzer.ts`.
`line` is a JS number that the code coerces to an integer-like value
(`typeof issue.line === 'number' ? issue.line : 1`); it is modelled as an
integer.  `suggestion` is optional in the interface. -/
structure Issue where
  severity : Severity
  file : String
  line : Int
  message : String
  rule : String
  suggestion : Option String
deriving DecidableEq

/-- The `issues_count` object of a result summary. -/
structure IssuesCount where
  critical : Nat
  major : Nat
  minor : Nat
deriving DecidableEq

/-- The `summary` object of an `AnalysisResult`. -/
structure Summary where
  languages : List String
  total_files_analyzed : Nat
  issues_count : IssuesCount
deriving DecidableEq

/-- An entry of the (always empty) `patches` array. -/
structure Patch where
  file : String
  original : String
  corrected : String
deriving DecidableEq

/-- A refactored file record (`{file, original, refactored}`). -/
structure RefactoredFile where
  file : String
  original : String
  refactored : String
deriving DecidableEq

/-- The `AnalysisResult` record of `server/analyzer.ts`. -/
structure AnalysisResult where
  request_id : String
  status : String
  summary : Summary
  issues : List Issue
  patches : List Patch
  refactoredFiles : List RefactoredFile
deriving DecidableEq

/-- The quick-mode filter predicate of `analyzeCode`:
`allIssues.filter(i => i.severity === "critical" || i.severity === "major")`. -/
def keepInQuick (i : Issue) : Bool :=
  i.severity = Severity.critical ∨ i.severity = Severity.major

/-- The pure aggregation core of `analyzeCode` (`server/analyzer.ts`,
after the three per-language analyzers have returned).  The per-language
issue lists and the classified file counts are inputs: they are produced
by external AI/provider calls and by the file system, which the embedding
treats as oracles.  Everything from `const languages = ...` down to the
returned record literal is translated directly. -/
def assembleResult (requestId : String) (analysisMode : String)
    (pythonIssues jsIssues tsIssues : List Issue)
    (pythonCount jsCount tsCount : Nat)
    (refactoredFiles : List RefactoredFile) : AnalysisResult :=
  let languages : List String :=
    (if pythonCount > 0 then ["python"] else []) ++
    (if jsCount > 0 then ["javascript"] else []) ++
    (if tsCount > 0 then ["typescript"] else [])
  let combined : List Issue := pythonIssues ++ jsIssues ++ tsIssues
  let allIssues : List Issue :=
    if analysisMode = "quick" then combined.filter keepInQuick else combined
  { request_id := requestId
    status := "completed"
    summary :=
      { languages := languages
        total_files_analyzed := pythonCount + jsCount + tsCount
        issues_count :=
          { critical := (allIssues.filter (fun i => i.severity = Severity.critical)).length
            major := (allIssues.filter (fun i => i.severity = Severity.major)).length
            minor := (allIssues.filter (fun i => i.severity = Severity.minor)).length } }
    issues := allIssues
    patches := []
    refactoredFiles := refactoredFiles }

/-- Job lifecycle status (`z.enum(["pending","processing","completed","failed"])`). -/
inductive JobStatus where
  | pending
  | processing
  | completed
  | failed
deriving DecidableEq

/-- A job record (`AnalysisJob` of `shared/schema`).  `createdAt` and
`updatedAt` are clock readings, modelled as naturals (see the header).
`results` is `z.any().optional()`; the server only ever stores analysis
results there, so it is typed as `Option AnalysisResult`. -/
structure AnalysisJob where
  id : String
  status : JobStatus
  createdAt : Nat
  updatedAt : Nat
  repoUrl : Option String
  analysisMode : String
  results : Option AnalysisResult
deriving DecidableEq

/-- The job store state: the `Map` held by `MemStorage`, as an association
list with `Map.set` replace-or-append semantics. -/
def JobStore := List (String × AnalysisJob)

/-- The `Map.set` operation of the jobs map: replace the binding if the key
is present, otherwise append it. -/
def setJob : JobStore → String → AnalysisJob → JobStore
  | [], k, v => [(k, v)]
  | (k', v') :: rest, k, v =>
    if k' = k then (k, v) :: rest else (k', v') :: setJob rest k v

/-- The `MemStorage.getJob` operation (`this.jobs.get(id)`). -/
def getJob : JobStore → String → Option AnalysisJob
  | [], _ => none
  | (k', v') :: rest, k => if k' = k then some v' else getJob rest k

/-- Data of `insertAnalysisJobSchema`: repo url (optional) and mode. -/
structure InsertAnalysisJob where
  repoUrl : Option String
  analysisMode : String

/-- The `MemStorage.createJob` operation.  The generated id
(`req-${randomUUID().slice(0,8)}`) and the clock reading `now`
(`new Date().toISOString()`) are externalized as parameters.  The new job
is `pending`, with `createdAt = updatedAt = now` and no results. -/
def createJob (store : JobStore) (id : String) (now : Nat)
    (data : InsertAnalysisJob) : JobStore × AnalysisJob :=
  let job : AnalysisJob :=
    { id := id
      status := JobStatus.pending
      createdAt := now
      updatedAt := now
      repoUrl := data.repoUrl
      analysisMode := data.analysisMode
      results := none }
  (setJob store id job, job)

/-- The `MemStorage.updateJobStatus` operation.  If the job is missing the
store is unchanged and `undefined` is returned.  Otherwise the record is
replaced wholesale with the new status, `updatedAt := now` (the call-time
clock reading), and `results := results !== undefined ? results : job.results`. -/
def updateJobStatus (store : JobStore) (id : String) (status : JobStatus)
    (results : Option AnalysisResult) (now : Nat) :
    JobStore × Option AnalysisJob :=
  match getJob store id with
  | none => (store, none)
  | some job =>
    let updatedJob : AnalysisJob :=
      { job with
        status := status
        updatedAt := now
        results := match results with
          | some r => some r
          | none => job.results }
    (setJob store id updatedJob, some updatedJob)

/-- Responses of `POST /api/analyze` that the embedding distinguishes. -/
inductive AnalyzeResp where
  | accepted (request_id : String)
  | badRequest
deriving DecidableEq

/-- The raw `/api/analyze` request after multer: an optional uploaded file
buffer (its bytes are never inspected by the handler logic, only forwarded)
and the two multipart text fields, absent keys being `undefined`. -/
structure AnalyzeRawReq where
  file : Option String
  analysis_mode : Option String
  repo_url : Option String

/-- The `analyzeRequestSchema.safeParse` step of the handler:
`analysis_mode` is the enum `quick|standard|deep` with default
`"standard"`; `repo_url` is `z.string().url().optional().or(z.literal(""))`,
i.e. absent, a URL-shaped string, or the empty string.  URL-shapedness
(`z.string().url()`) is externalized as the predicate `urlOk`.  Returns
`none` on validation failure, otherwise the parsed mode and raw repo url. -/
def parseAnalyzeBody (urlOk : String → Bool)
    (analysis_mode : Option String) (repo_url : Option String) :
    Option (String × Option String) :=
  match analysis_mode with
  | some m =>
    if m = "quick" ∨ m = "standard" ∨ m = "deep" then
      match repo_url with
      | none => some (m, none)
      | some s => if urlOk s ∨ s = "" then some (m, some s) else none
    else none
  | none =>
    match repo_url with
    | none => some ("standard", none)
    | some s => if urlOk s ∨ s = "" then some ("standard", some s) else none

/-- The `POST /api/analyze` handler of `server/routes.ts`, up to the point
where the response is sent: schema validation, the
`!file && !repoUrl → 400` guard, `createJob`, and the synchronous
`updateJobStatus(job.id, "processing")`.  The asynchronous pipeline that
runs afterwards is modelled separately (`pipelineFinish`).  The generated
job id and the clock reading are parameters, as in the store model. -/
def analyzeHandler (urlOk : String → Bool) (req : AnalyzeRawReq)
    (store : JobStore) (newId : String) (now : Nat) :
    AnalyzeResp × JobStore :=
  match parseAnalyzeBody urlOk req.analysis_mode req.repo_url with
  | none => (AnalyzeResp.badRequest, store)
  | some (analysisMode, rawRepoUrl) =>
    let repoUrl : Option String :=
      match rawRepoUrl with
      | some s => if s.length > 0 then some s else none
      | none => none
    match req.file, repoUrl with
    | none, none => (AnalyzeResp.badRequest, store)
    | _, _ =>
      let created := createJob store newId now
        { repoUrl := repoUrl, analysisMode := analysisMode }
      let updated := updateJobStatus created.1 newId JobStatus.processing none now
      (AnalyzeResp.accepted created.2.id, updated.1)

/-- The empty-but-well-formed result that the `/api/analyze` failure branch
stores when the pipeline throws (`server/routes.ts`, the `catch` block). -/
def failedResult (requestId : String) : AnalysisResult :=
  { request_id := requestId
    status := "failed"
    summary :=
      { languages := []
        total_files_analyzed := 0
        issues_count := { critical := 0, major := 0, minor := 0 } }
    issues := []
    patches := []
    refactoredFiles := [] }

/-- The tail of the fire-and-forget pipeline launched by `/api/analyze`:
on success `updateJobStatus(id, "completed", analysisResult)`, on any
thrown error `updateJobStatus(id, "failed", emptyResult)`.  The outcome of
`analyzeCode` (which depends on the file system and the AI provider) is an
input. -/
def pipelineFinish (store : JobStore) (id : String)
    (outcome : Except Unit AnalysisResult) (now : Nat) : JobStore :=
  match outcome with
  | Except.ok r => (updateJobStatus store id JobStatus.completed (some r) now).1
  | Except.error _ => (updateJobStatus store id JobStatus.failed (some (failedResult id)) now).1

/-- The terminal status the pipeline writes for a given `analyzeCode` outcome. -/
def finalStatus (outcome : Except Unit AnalysisResult) : JobStatus :=
  match outcome with
  | Except.ok _ => JobStatus.completed
  | Except.error _ => JobStatus.failed

/-- The status of the tracked job observed after each of the three store
operations the in-process orchestrator performs: creation, the synchronous
`processing` update, and the asynchronous terminal update. -/
def pipelineStatusTrace (store : JobStore) (id : String)
    (data : InsertAnalysisJob) (t0 t1 t2 : Nat)
    (outcome : Except Unit AnalysisResult) : List (Option JobStatus) :=
  let created := createJob store id t0 data
  let s2 := (updateJobStatus created.1 id JobStatus.processing none t1).1
  let s3 := pipelineFinish s2 id outcome t2
  [some created.2.status,
   (getJob s2 id).map (fun j => j.status),
   (getJob s3 id).map (fun j => j.status)]

/-- The transitions the spec admits: pending → processing → {completed|failed}. -/
def stepOk : JobStatus → JobStatus → Bool
  | JobStatus.pending, JobStatus.processing => true
  | JobStatus.processing, JobStatus.completed => true
  | JobStatus.processing, JobStatus.failed => true
  | _, _ => false

/-- Responses of `POST /api/callback` that the embedding distinguishes. -/
inductive CallbackResp where
  | success
  | unauthorized
  | notFound
deriving DecidableEq

/-- A parsed callback payload (`callbackPayloadSchema`):
`callback_secret`, `request_id` and `status` are required strings; `results`
is `z.any()`, so it may be absent (`undefined`, modelled `none`); when the
webhook does supply results they are analysis results. -/
structure CallbackPayload where
  callback_secret : String
  request_id : String
  status : String
  results : Option AnalysisResult

/-- The `POST /api/callback` handler of `server/routes.ts` after schema
parsing: 401 on secret mismatch, 404 on unknown job, otherwise
`newStatus = status === "completed" ? "completed" : status === "failed" ?
"failed" : job.status` followed by
`updateJobStatus(request_id, newStatus, results)`. -/
def callbackHandler (configuredSecret : String) (p : CallbackPayload)
    (store : JobStore) (now : Nat) : CallbackResp × JobStore :=
  if p.callback_secret = configuredSecret then
    match getJob store p.request_id with
    | none => (CallbackResp.notFound, store)
    | some job =>
      let newStatus : JobStatus :=
        if p.status = "completed" then JobStatus.completed
        else if p.status = "failed" then JobStatus.failed
        else job.status
      (CallbackResp.success, (updateJobStatus store p.request_id newStatus p.results now).1)
  else (CallbackResp.unauthorized, store)

/-- Outcome of one AI-provider call attempt: a returned value, or a thrown
error carrying the `status` field the retry helper inspects (`429` is the
provider's rate-limit signal). -/
inductive Attempt (α : Type) where
  | ok (v : α)
  | err (status : Int)
deriving DecidableEq

/-- The `for` loop of `retryWithBackoff`, from loop index `i`, with
`remaining = maxRetries - i` iterations left (the loop guard `i < maxRetries`
holds exactly while `remaining > 0`).  The provider is the oracle
`fn : Nat → Attempt α` giving the outcome of the `i`-th call.  Returns the
function's result (`none` models the final `throw lastError` fallthrough,
reachable only when the loop body never runs) together with the list of
backoff delays actually slept, in order
(`delay = baseDelay * Math.pow(2, i)` before the retry of attempt `i`). -/
def retryLoop {α : Type} (fn : Nat → Attempt α) (maxRetries baseDelay : Nat) :
    Nat → Nat → Option (Attempt α) × List Nat
  | _, 0 => (none, [])
  | i, remaining + 1 =>
    match fn i with
    | Attempt.ok v => (some (Attempt.ok v), [])
    | Attempt.err s =>
      if s = 429 ∧ i < maxRetries - 1 then
        let rest := retryLoop fn maxRetries baseDelay (i + 1) remaining
        (rest.1, baseDelay * 2 ^ i :: rest.2)
      else (some (Attempt.err s), [])

/-- The `retryWithBackoff` helper (signature defaults `maxRetries = 3`,
`baseDelay = 1000`; both call sites override them). -/
def retryWithBackoff {α : Type} (fn : Nat → Attempt α)
    (maxRetries baseDelay : Nat) : Option (Attempt α) × List Nat :=
  retryLoop fn maxRetries baseDelay 0 maxRetries

/-- The provider call as made at both per-file call sites
(`analyzeFileWithGemini` and `refactorFileWithGemini`):
`retryWithBackoff(fn, 3, 2000)`. -/
def analyzeRetryCall {α : Type} (fn : Nat → Attempt α) :
    Option (Attempt α) × List Nat :=
  retryWithBackoff fn 3 2000

/-- A provider oracle in which every attempt is rate-limited. -/
def allRateLimited : Nat → Attempt Unit := fun _ => Attempt.err 429

/-- Outcome of the provider call made by `refactorFileWithGemini`: a thrown
error, or a response whose extracted text is `none` when neither
`response.text` nor the first candidate part carries text. -/
inductive ProviderOutcome where
  | ok (text : Option String)
  | err
deriving DecidableEq

/-- Model of the code-fence stripping applied to a successful refactor
response (`replace(/^```[\w]*\n?/g,'').replace(/\n?```$/g,'').trim()`):
drop a leading fence line and a trailing fence, then trim.  No claim
depends on its internals; it matters only that the success path transforms
the text while every failure path returns the original content. -/
def stripFences (s : String) : String :=
  let afterLead :=
    if s.startsWith "```" then
      let rest := s.drop 3
      let rest := rest.dropWhile (fun c => c.isAlphanum ∨ c = '_')
      if rest.startsWith "\n" then rest.drop 1 else rest
    else s
  let afterTrail :=
    if afterLead.endsWith "\n```" then afterLead.dropRight 4
    else if afterLead.endsWith "```" then afterLead.dropRight 3
    else afterLead
  afterTrail.trim

/-- The `refactorFileWithGemini` function.  The prompt built from
`relativePath` and the file's issues only feeds the provider, so those
arguments do not influence the returned value; the provider's behaviour is
the `outcome` oracle.  When no AI client is configured (`ai === null`), or
the call throws, or the response carries no text, the original
`fileContent` is returned; otherwise the fence-stripped response text. -/
def refactorFileWithGemini (aiConfigured : Bool)
    (outcome : ProviderOutcome) (relativePath : String)
    (issues : List Issue) (fileContent : String) : String :=
  if aiConfigured then
    match outcome with
    | ProviderOutcome.err => fileContent
    | ProviderOutcome.ok none => fileContent
    | ProviderOutcome.ok (some t) => stripFences t
  else fileContent

/-- One classified file as the refactorer sees it: its workspace-relative
path, its content (read succeeded), and the provider outcome for it. -/
structure RefactorInput where
  file : String
  content : String
  outcome : ProviderOutcome

/-- The `refactorFiles` loop: for every classified file, build
`{file, original: content, refactored: refactorFileWithGemini(...)}`. -/
def refactorFiles (aiConfigured : Bool) (issues : List Issue)
    (inputs : List RefactorInput) : List RefactoredFile :=
  inputs.map (fun inp =>
    { file := inp.file
      original := inp.content
      refactored := refactorFileWithGemini aiConfigured inp.outcome inp.file issues inp.content })

/-- JSON documents of the fragment `generateJSON` emits: strings, integer
numbers, arrays and objects (an `AnalysisResult` contains no booleans,
nulls or fractional numbers). -/
inductive Json where
  | str (s : String)
  | num (n : Int)
  | arr (elems : List Json)
  | obj (fields : List (String × Json))

/-- Lowercase hexadecimal digit character for a value below 16. -/
def hexDigitChar (n : Nat) : Char :=
  if n < 10 then Char.ofNat (48 + n) else Char.ofNat (87 + n)

/-- The string escaping of `JSON.stringify`: `"` and `\` get a backslash,
the five control characters with short escapes use them, any other control
character below U+0020 becomes `\u00XX` (lowercase hex), and everything
else is emitted verbatim. -/
def escapeChar (c : Char) : List Char :=
  if c = '"' then ['\\', '"']
  else if c = '\\' then ['\\', '\\']
  else if c = '\n' then ['\\', 'n']
  else if c = '\t' then ['\\', 't']
  else if c = '\r' then ['\\', 'r']
  else if c.toNat = 8 then ['\\', 'b']
  else if c.toNat = 12 then ['\\', 'f']
  else if c.toNat < 32 then
    ['\\', 'u', '0', '0', hexDigitChar (c.toNat / 16), hexDigitChar (c.toNat % 16)]
  else [c]

/-- Escape every character of a string body. -/
def escapeList (l : List Char) : List Char :=
  l.foldr (fun c acc => escapeChar c ++ acc) []

/-- Decimal digit character for a value below 10. -/
def decDigitChar (n : Nat) : Char := Char.ofNat (48 + n)

/-- Decimal digit accumulation for rendering a natural number. -/
def natDigitsAux (n : Nat) (acc : List Char) : List Char :=
  if n < 10 then decDigitChar n :: acc
  else natDigitsAux (n / 10) (decDigitChar (n % 10) :: acc)
termination_by n
decreasing_by
  have hn : ¬ n < 10 := by assumption
  exact Nat.div_lt_self (by omega) (by omega)

/-- Canonical decimal digits of a natural number (no leading zeros, `0 ↦ "0"`). -/
def natDigits (n : Nat) : List Char := natDigitsAux n []

/-- Decimal rendering of an integer as `JSON.stringify` prints it. -/
def intDigits (n : Int) : List Char :=
  if n < 0 then '-' :: natDigits (-n).toNat else natDigits n.toNat

/-- Indentation emitted by `JSON.stringify(v, null, 2)` at nesting depth `d`. -/
def indentChars (d : Nat) : List Char := List.replicate (2 * d) ' '

mutual

/-- Pretty printing of a document exactly as `JSON.stringify(v, null, 2)`
lays it out: empty arrays/objects are `[]`/`{}` (written with escaped
brace characters below), non-empty ones put each element on its own
indented line, and object members are rendered `"key": value`. -/
def renderJson : Json → Nat → List Char
  | Json.str s, _ => '"' :: (escapeList s.data ++ ['"'])
  | Json.num n, _ => intDigits n
  | Json.arr [], _ => ['[', ']']
  | Json.arr (e :: es), d =>
    '[' :: '\n' :: (renderItems (e :: es) (d + 1) ++ '\n' :: (indentChars d ++ [']']))
  | Json.obj [], _ => ['\x7b', '\x7d']
  | Json.obj (f :: fs), d =>
    '\x7b' :: '\n' :: (renderFields (f :: fs) (d + 1) ++ '\n' :: (indentChars d ++ ['\x7d']))

/-- Render the elements of a non-empty array, one per line at depth `d`,
separated by `",\n"`. -/
def renderItems : List Json → Nat → List Char
  | [], _ => []
  | [e], d => indentChars d ++ renderJson e d
  | e :: es, d =>
    indentChars d ++ (renderJson e d ++ ',' :: '\n' :: renderItems es d)

/-- Render the members of a non-empty object, one per line at depth `d`,
separated by `",\n"`. -/
def renderFields : List (String × Json) → Nat → List Char
  | [], _ => []
  | [(k, v)], d =>
    indentChars d ++ ('"' :: (escapeList k.data ++ '"' :: ':' :: ' ' :: renderJson v d))
  | (k, v) :: fs, d =>
    indentChars d ++
      ('"' :: (escapeList k.data ++ '"' :: ':' :: ' ' ::
        (renderJson v d ++ ',' :: '\n' :: renderFields fs d)))

end

/-- Whitespace characters `JSON.parse` skips between tokens. -/
def isWsChar (c : Char) : Bool :=
  c = ' ' ∨ c = '\n' ∨ c = '\t' ∨ c = '\r'

/-- Skip inter-token whitespace. -/
def skipWs (cs : List Char) : List Char := cs.dropWhile isWsChar

/-- Decimal digit test. -/
def isDigitChar (c : Char) : Bool := 48 ≤ c.toNat ∧ c.toNat ≤ 57

/-- Value of a decimal digit character. -/
def digitVal (c : Char) : Nat := c.toNat - 48

/-- Value of a decimal digit string, most significant first. -/
def digitsVal (ds : List Char) : Nat :=
  ds.foldl (fun a c => 10 * a + digitVal c) 0

/-- Parse a natural-number token: one or more leading digits. -/
def parseNatTok (cs : List Char) : Option (Nat × List Char) :=
  match cs.takeWhile isDigitChar with
  | [] => none
  | ds => some (digitsVal ds, cs.dropWhile isDigitChar)

/-- Parse an integer token (`JSON.parse` number syntax restricted to the
integers, the only numbers `generateJSON` emits). -/
def parseNum (cs : List Char) : Option (Int × List Char) :=
  match cs with
  | '-' :: rest => (parseNatTok rest).map (fun p => (-(p.1 : Int), p.2))
  | _ => (parseNatTok cs).map (fun p => ((p.1 : Int), p.2))

/-- Value of a hexadecimal digit character, if it is one. -/
def hexVal (c : Char) : Option Nat :=
  if 48 ≤ c.toNat ∧ c.toNat ≤ 57 then some (c.toNat - 48)
  else if 97 ≤ c.toNat ∧ c.toNat ≤ 102 then some (c.toNat - 87)
  else if 65 ≤ c.toNat ∧ c.toNat ≤ 70 then some (c.toNat - 55)
  else none

/-- Parse a JSON string body after the opening quote, decoding the escape
sequences `JSON.parse` accepts, up to and including the closing quote.
Raw control characters are rejected, as `JSON.parse` rejects them.
(Surrogate pairing is irrelevant here: the rendered fragment only `\u`-codes
scalar values below U+0020.) -/
def parseStrBody : List Char → Option (List Char × List Char)
  | [] => none
  | '"' :: rest => some ([], rest)
  | '\\' :: '"' :: rest => (parseStrBody rest).map (fun p => ('"' :: p.1, p.2))
  | '\\' :: '\\' :: rest => (parseStrBody rest).map (fun p => ('\\' :: p.1, p.2))
  | '\\' :: '/' :: rest => (parseStrBody rest).map (fun p => ('/' :: p.1, p.2))
  | '\\' :: 'n' :: rest => (parseStrBody rest).map (fun p => ('\n' :: p.1, p.2))
  | '\\' :: 't' :: rest => (parseStrBody rest).map (fun p => ('\t' :: p.1, p.2))
  | '\\' :: 'r' :: rest => (parseStrBody rest).map (fun p => ('\r' :: p.1, p.2))
  | '\\' :: 'b' :: rest => (parseStrBody rest).map (fun p => (Char.ofNat 8 :: p.1, p.2))
  | '\\' :: 'f' :: rest => (parseStrBody rest).map (fun p => (Char.ofNat 12 :: p.1, p.2))
  | '\\' :: 'u' :: h1 :: h2 :: h3 :: h4 :: rest =>
    (match hexVal h1, hexVal h2, hexVal h3, hexVal h4 with
     | some a, some b, some c, some d =>
       (parseStrBody rest).map
         (fun p => (Char.ofNat (4096 * a + 256 * b + 16 * c + d) :: p.1, p.2))
     | _, _, _, _ => none)
  | '\\' :: _ => none
  | c :: rest =>
    if c.toNat < 32 then none
    else (parseStrBody rest).map (fun p => (c :: p.1, p.2))

mutual

/-- Fueled recursive-descent parser for the document fragment that the
renderer emits (the relevant restriction of `JSON.parse`).  The fuel only
serves termination; `parseJson` supplies more than any document needs. -/
def parseVal : Nat → List Char → Option (Json × List Char)
  | 0, _ => none
  | fuel + 1, cs =>
    match skipWs cs with
    | [] => none
    | '"' :: rest => (parseStrBody rest).map (fun p => (Json.str (String.mk p.1), p.2))
    | '[' :: rest =>
      (match skipWs rest with
       | ']' :: rest2 => some (Json.arr [], rest2)
       | _ => (parseItems fuel rest).map (fun p => (Json.arr p.1, p.2)))
    | '\x7b' :: rest =>
      (match skipWs rest with
       | '\x7d' :: rest2 => some (Json.obj [], rest2)
       | _ => (parseFields fuel rest).map (fun p => (Json.obj p.1, p.2)))
    | c :: rest =>
      if c = '-' ∨ isDigitChar c then
        (parseNum (c :: rest)).map (fun p => (Json.num p.1, p.2))
      else none

/-- Parse the remaining elements of a non-empty array, consuming the
closing bracket. -/
def parseItems : Nat → List Char → Option (List Json × List Char)
  | 0, _ => none
  | fuel + 1, cs =>
    match parseVal fuel cs with
    | none => none
    | some (j, rest) =>
      match skipWs rest with
      | ',' :: rest2 => (parseItems fuel rest2).map (fun p => (j :: p.1, p.2))
      | ']' :: rest2 => some ([j], rest2)
      | _ => none

/-- Parse the remaining members of a non-empty object, consuming the
closing brace. -/
def parseFields : Nat → List Char → Option (List (String × Json) × List Char)
  | 0, _ => none
  | fuel + 1, cs =>
    match skipWs cs with
    | '"' :: rest =>
      (match parseStrBody rest with
       | none => none
       | some (k, rest1) =>
         match skipWs rest1 with
         | ':' :: rest2 =>
           (match parseVal fuel rest2 with
            | none => none
            | some (v, rest3) =>
              match skipWs rest3 with
              | ',' :: rest4 =>
                (parseFields fuel rest4).map (fun p => ((String.mk k, v) :: p.1, p.2))
              | '\x7d' :: rest4 => some ([(String.mk k, v)], rest4)
              | _ => none)
         | _ => none)
    | _ => none

end

mutual

/-- Fuel sufficient for `parseVal` to parse a rendering of the document. -/
def fuelNeed : Json → Nat
  | Json.str _ => 1
  | Json.num _ => 1
  | Json.arr [] => 1
  | Json.arr (e :: es) => 1 + itemsFuel (e :: es)
  | Json.obj [] => 1
  | Json.obj (f :: fs) => 1 + fieldsFuel (f :: fs)

/-- Fuel sufficient for `parseItems` on a rendered element list. -/
def itemsFuel : List Json → Nat
  | [] => 0
  | e :: es => 1 + fuelNeed e + itemsFuel es

/-- Fuel sufficient for `parseFields` on a rendered member list. -/
def fieldsFuel : List (String × Json) → Nat
  | [] => 0
  | (_, v) :: fs => 1 + fuelNeed v + fieldsFuel fs

end

/-- Severity as the string stored in the JSON document. -/
def sevString : Severity → String
  | Severity.critical => "critical"
  | Severity.major => "major"
  | Severity.minor => "minor"

/-- The JSON document of one issue, member order as in the object literal
of `analyzeFileWithGemini`; an absent `suggestion` is omitted, as
`JSON.stringify` omits `undefined`-valued members. -/
def issueJson (i : Issue) : Json :=
  Json.obj
    ([("severity", Json.str (sevString i.severity)),
      ("file", Json.str i.file),
      ("line", Json.num i.line),
      ("message", Json.str i.message),
      ("rule", Json.str i.rule)] ++
     (match i.suggestion with
      | some s => [("suggestion", Json.str s)]
      | none => []))

/-- The JSON document of one (hypothetical) patch entry. -/
def patchJson (p : Patch) : Json :=
  Json.obj
    [("file", Json.str p.file),
     ("original", Json.str p.original),
     ("corrected", Json.str p.corrected)]

/-- The JSON document of one refactored-file entry. -/
def refactoredFileJson (r : RefactoredFile) : Json :=
  Json.obj
    [("file", Json.str r.file),
     ("original", Json.str r.original),
     ("refactored", Json.str r.refactored)]

/-- The JSON document of an `AnalysisResult`, member order as declared. -/
def resultToJson (r : AnalysisResult) : Json :=
  Json.obj
    [("request_id", Json.str r.request_id),
     ("status", Json.str r.status),
     ("summary", Json.obj
       [("languages", Json.arr (r.summary.languages.map Json.str)),
        ("total_files_analyzed", Json.num r.summary.total_files_analyzed),
        ("issues_count", Json.obj
          [("critical", Json.num r.summary.issues_count.critical),
           ("major", Json.num r.summary.issues_count.major),
           ("minor", Json.num r.summary.issues_count.minor)])]),
     ("issues", Json.arr (r.issues.map issueJson)),
     ("patches", Json.arr (r.patches.map patchJson)),
     ("refactoredFiles", Json.arr (r.refactoredFiles.map refactoredFileJson))]

/-- Serialization of a document in the layout of `JSON.stringify(v, null, 2)`. -/
def jsonStringify (j : Json) : String := String.mk (renderJson j 0)

/-- The `generateJSON` report generator:
`JSON.stringify(result, null, 2)`. -/
def generateJSON (r : AnalysisResult) : String :=
  jsonStringify (resultToJson r)

/-- The `JSON.parse` model on whole inputs: parse one document and require
only trailing whitespace after it. -/
def parseJson (s : String) : Option Json :=
  match parseVal (s.data.length + 1) s.data with
  | some (j, rest) => if skipWs rest = [] then some j else none
  | none => none

/-- Predicate on the remaining input after a token: its first character, if
any, does not satisfy `p` (used to delimit number tokens). -/
def headNotP (p : Char → Bool) : List Char → Prop
  | [] => True
  | c :: _ => p c = false

/-- A URL-shape oracle accepting every string, for concrete instances. -/
def urlAlwaysOk : String → Bool := fun _ => true

/-- A concrete minor-severity issue, for concrete instances. -/
def sampleIssue : Issue :=
  { severity := Severity.minor
    file := "app.py"
    line := 3
    message := "unused import"
    rule := "python/pyflakes"
    suggestion := none }

/-- A concrete result carrying one issue, as an external webhook may
deliver through `/api/callback` (`results` is `z.any()` there). -/
def nonEmptyResult : AnalysisResult :=
  { request_id := "j"
    status := "completed"
    summary :=
      { languages := ["python"]
        total_files_analyzed := 1
        issues_count := { critical := 0, major := 0, minor := 1 } }
    issues := [sampleIssue]
    patches := []
    refactoredFiles := [] }

/-- A concrete refactorer input whose provider call throws. -/
def sampleRefactorInput : RefactorInput :=
  { file := "app.py", content := "print x", outcome := ProviderOutcome.err }

/-- Filtering a list of issues by the three severities partitions it:
the three filtered lengths sum to the length of the list. -/
theorem severity_partition (l : List Issue) :
    (l.filter (fun i => i.severity = Severity.critical)).length +
    (l.filter (fun i => i.severity = Severity.major)).length +
    (l.filter (fun i => i.severity = Severity.minor)).length = l.length := by
  induction l with
  | nil => rfl
  | cons a l ih =>
    cases h : a.severity <;>
      simp [List.filter_cons, h, decide_eq_true_eq] <;> omega

/-- A quick-mode-surviving issue is never minor. -/
theorem keepInQuick_not_minor (i : Issue) (h : keepInQuick i = true) :
    ¬ i.severity = Severity.minor := by
  cases hs : i.severity <;> simp_all [keepInQuick]

/-- Looking up a key right after `Map.set` on that key yields the stored job. -/
theorem getJob_setJob (s : JobStore) (k : String) (v : AnalysisJob) :
    getJob (setJob s k v) k = some v := by
  induction s with
  | nil => simp [setJob, getJob]
  | cons hd tl ih =>
    obtain ⟨k', v'⟩ := hd
    by_cases h : k' = k
    · simp [setJob, getJob, h]
    · simp [setJob, getJob, h, ih]

/-- C6: every `AnalysisResult` assembled by `analyzeCode` has
`summary.issues_count.critical + major + minor` equal to the length of its
`issues` array. -/
theorem C6_issue_counts_sum (requestId analysisMode : String)
    (pythonIssues jsIssues tsIssues : List Issue)
    (pythonCount jsCount tsCount : Nat) (refactored : List RefactoredFile) :
    (assembleResult requestId analysisMode pythonIssues jsIssues tsIssues
        pythonCount jsCount tsCount refactored).summary.issues_count.critical +
    (assembleResult requestId analysisMode pythonIssues jsIssues tsIssues
        pythonCount jsCount tsCount refactored).summary.issues_count.major +
    (assembleResult requestId analysisMode pythonIssues jsIssues tsIssues
        pythonCount jsCount tsCount refactored).summary.issues_count.minor =
    (assembleResult requestId analysisMode pythonIssues jsIssues tsIssues
        pythonCount jsCount tsCount refactored).issues.length := by
  unfold assembleResult
  exact severity_partition _

/-- A minor issue never survives the quick-mode filter. -/
theorem keepInQuick_minor_false (a : Issue)
    (h : a.severity = Severity.minor) : keepInQuick a = false := by
  simp [keepInQuick, h]

/-- C5: in quick mode the assembled result's issue list is the combined
per-language issue list filtered once (after all languages are analyzed) by
the critical-or-major predicate, it contains zero minor issues, and the
recorded minor count is zero.  The per-language analyses themselves (the
three input lists) are produced without reference to the mode, so no
filtering happens during analysis. -/
theorem C5_quick_mode_minor_filter (requestId : String)
    (pythonIssues jsIssues tsIssues : List Issue)
    (pythonCount jsCount tsCount : Nat) (refactored : List RefactoredFile) :
    (assembleResult requestId "quick" pythonIssues jsIssues tsIssues
        pythonCount jsCount tsCount refactored).issues =
      (pythonIssues ++ jsIssues ++ tsIssues).filter keepInQuick ∧
    ((assembleResult requestId "quick" pythonIssues jsIssues tsIssues
        pythonCount jsCount tsCount refactored).issues.filter
      (fun i => i.severity = Severity.minor)).length = 0 ∧
    (assembleResult requestId "quick" pythonIssues jsIssues tsIssues
        pythonCount jsCount tsCount refactored).summary.issues_count.minor = 0 := by
  refine ⟨?_, ?_, ?_⟩
  · simp [assembleResult]
  · simp [assembleResult]
    exact ⟨fun a _ h => keepInQuick_minor_false a h,
           fun a _ h => keepInQuick_minor_false a h,
           fun a _ h => keepInQuick_minor_false a h⟩
  · simp [assembleResult]
    exact ⟨fun a _ h => keepInQuick_minor_false a h,
           fun a _ h => keepInQuick_minor_false a h,
           fun a _ h => keepInQuick_minor_false a h⟩

/-- C1 counterexample: a request supplying both a `code_zip` file and a
non-empty, well-formed `repo_url` is accepted by `/api/analyze` — the
response is 200 with the new request id and a job record is created — not
rejected with 400, because the handler only rejects when neither source is
present. -/
theorem C1_counterexample :
    (analyzeHandler urlAlwaysOk
        { file := some "zipbytes", analysis_mode := none,
          repo_url := some "https://example.com/repo" } [] "req-1" 0).1 =
      AnalyzeResp.accepted "req-1" ∧
    (analyzeHandler urlAlwaysOk
        { file := some "zipbytes", analysis_mode := none,
          repo_url := some "https://example.com/repo" } [] "req-1" 0).1 ≠
      AnalyzeResp.badRequest ∧
    (getJob (analyzeHandler urlAlwaysOk
        { file := some "zipbytes", analysis_mode := none,
          repo_url := some "https://example.com/repo" } [] "req-1" 0).2 "req-1").isSome = true := by
  decide

/-- C1 (amended): a `POST /api/analyze` request that passes schema
validation and supplies both a `code_zip` file and a non-empty `repo_url`
is accepted, not rejected: a job record is created and advanced to
`processing`, and the response is 200 with its id.  (HTTP 400 with no job
record is reserved for requests where schema validation fails or neither
source is supplied.) -/
theorem C1_amended (urlOk : String → Bool) (store : JobStore) (newId : String)
    (now : Nat) (zipBytes url mode : String) (rawMode : Option String)
    (hparse : parseAnalyzeBody urlOk rawMode (some url) = some (mode, some url))
    (hlen : 0 < url.length) :
    (analyzeHandler urlOk
        { file := some zipBytes, analysis_mode := rawMode, repo_url := some url }
        store newId now).1 = AnalyzeResp.accepted newId ∧
    (getJob (analyzeHandler urlOk
        { file := some zipBytes, analysis_mode := rawMode, repo_url := some url }
        store newId now).2 newId).map (fun j => j.status) =
      some JobStatus.processing := by
  unfold analyzeHandler
  rw [hparse]
  simp only [hlen, if_pos]
  constructor
  · rfl
  · simp [createJob, updateJobStatus, getJob_setJob]

/-- C1 witness: the amended theorem applied at a concrete both-sources
request. -/
theorem C1_witness :
    parseAnalyzeBody urlAlwaysOk none (some "https://example.com/repo") =
      some ("standard", some "https://example.com/repo") ∧
    0 < ("https://example.com/repo" : String).length ∧
    (analyzeHandler urlAlwaysOk
        { file := some "zipbytes", analysis_mode := none,
          repo_url := some "https://example.com/repo" } [] "req-1" 0).1 =
      AnalyzeResp.accepted "req-1" :=
  ⟨by decide, by decide,
    (C1_amended urlAlwaysOk [] "req-1" 0 "zipbytes" "https://example.com/repo"
      "standard" none (by decide) (by decide)).1⟩

/-- C2 counterexample: the status of a job that has reached `completed`
changes again — `POST /api/callback` with a matching secret and
`status: "failed"` overwrites the terminal `completed` with `failed`,
because `updateJobStatus` applies whatever status its caller passes. -/
theorem C2_counterexample :
    (getJob (updateJobStatus
        (updateJobStatus
          (createJob [] "req-1" 0 { repoUrl := none, analysisMode := "standard" }).1
          "req-1" JobStatus.processing none 1).1
        "req-1" JobStatus.completed (some nonEmptyResult) 2).1 "req-1").map
      (fun j => j.status) = some JobStatus.completed ∧
    (getJob (callbackHandler "demo-secret"
        { callback_secret := "demo-secret", request_id := "req-1",
          status := "failed", results := none }
        (updateJobStatus
          (updateJobStatus
            (createJob [] "req-1" 0 { repoUrl := none, analysisMode := "standard" }).1
            "req-1" JobStatus.processing none 1).1
          "req-1" JobStatus.completed (some nonEmptyResult) 2).1 3).2 "req-1").map
      (fun j => j.status) = some JobStatus.failed ∧
    JobStatus.failed ≠ JobStatus.completed := by
  decide

/-- C2 (amended): the in-process orchestrator on its own respects the
order — its three store operations leave the tracked job `pending`, then
`processing`, then `completed` or `failed`, each step an allowed forward
transition, with no transition allowed out of the terminal status.  The
`updateJobStatus` operation itself enforces no ordering, however, so
`POST /api/callback` can still overwrite a terminal status (see the
counterexample). -/
theorem C2_pipeline_monotone (store : JobStore) (id : String)
    (data : InsertAnalysisJob) (t0 t1 t2 : Nat)
    (outcome : Except Unit AnalysisResult) :
    pipelineStatusTrace store id data t0 t1 t2 outcome =
      [some JobStatus.pending, some JobStatus.processing,
       some (finalStatus outcome)] ∧
    stepOk JobStatus.pending JobStatus.processing = true ∧
    stepOk JobStatus.processing (finalStatus outcome) = true ∧
    (∀ next : JobStatus, stepOk (finalStatus outcome) next = false) := by
  refine ⟨?_, rfl, ?_, ?_⟩
  · cases outcome <;>
      simp [pipelineStatusTrace, createJob, pipelineFinish, updateJobStatus,
        getJob_setJob, finalStatus]
  · cases outcome <;> rfl
  · intro next
    cases outcome <;> cases next <;> rfl

/-- C3 counterexample: two store operations carried out at the same clock
reading (the same millisecond) — job creation at time 5 and the status
change pending → processing also at time 5 — leave `updatedAt` equal to
its previous value, not strictly greater, because `updateJobStatus` merely
stamps the current time. -/
theorem C3_counterexample :
    (createJob [] "req-1" 5 { repoUrl := none, analysisMode := "standard" }).2.status =
      JobStatus.pending ∧
    (createJob [] "req-1" 5 { repoUrl := none, analysisMode := "standard" }).2.updatedAt = 5 ∧
    ((updateJobStatus
        (createJob [] "req-1" 5 { repoUrl := none, analysisMode := "standard" }).1
        "req-1" JobStatus.processing none 5).2.map (fun j => j.status)) =
      some JobStatus.processing ∧
    ((updateJobStatus
        (createJob [] "req-1" 5 { repoUrl := none, analysisMode := "standard" }).1
        "req-1" JobStatus.processing none 5).2.map (fun j => j.updatedAt)) = some 5 ∧
    ¬ (5 : Nat) < 5 := by
  decide

/-- C3 (amended): `updateJobStatus` stamps `updatedAt` with the call-time
clock reading, so across a transition `updatedAt` equals the time of the
update: it never decreases while the clock is monotone, and it strictly
increases exactly when the clock strictly advanced since the previous
update — two transitions within the same clock reading leave it equal. -/
theorem C3_updatedAt_stamped (store : JobStore) (id : String)
    (st : JobStatus) (results : Option AnalysisResult) (now : Nat)
    (job : AnalysisJob) (hjob : getJob store id = some job) :
    ((updateJobStatus store id st results now).2.map (fun j => j.updatedAt) =
      some now) ∧
    (job.updatedAt ≤ now → ∀ j',
      (updateJobStatus store id st results now).2 = some j' →
      job.updatedAt ≤ j'.updatedAt) ∧
    (job.updatedAt < now → ∀ j',
      (updateJobStatus store id st results now).2 = some j' →
      job.updatedAt < j'.updatedAt) := by
  refine ⟨?_, ?_, ?_⟩
  · simp [updateJobStatus, hjob]
  · intro h j' hj'
    simp [updateJobStatus, hjob] at hj'
    rw [← hj']
    exact h
  · intro h j' hj'
    simp [updateJobStatus, hjob] at hj'
    rw [← hj']
    exact h

/-- C3 witness: the amended theorem applied to a freshly created job
updated at a strictly later clock reading. -/
theorem C3_witness :
    getJob (createJob [] "req-1" 0 { repoUrl := none, analysisMode := "standard" }).1
      "req-1" = some (createJob [] "req-1" 0 { repoUrl := none, analysisMode := "standard" }).2 ∧
    ((updateJobStatus
        (createJob [] "req-1" 0 { repoUrl := none, analysisMode := "standard" }).1
        "req-1" JobStatus.processing none 7).2.map (fun j => j.updatedAt) = some 7) :=
  ⟨by decide,
    (C3_updatedAt_stamped
      (createJob [] "req-1" 0 { repoUrl := none, analysisMode := "standard" }).1
      "req-1" JobStatus.processing none 7
      (createJob [] "req-1" 0 { repoUrl := none, analysisMode := "standard" }).2
      (by decide)).1⟩

/-- C4 counterexample: a job can end up `failed` with non-empty results —
`POST /api/callback` with a matching secret, `status: "failed"` and a
results payload carrying one issue stores those results verbatim, so a
failed job's `results.issues` is not an empty array. -/
theorem C4_counterexample :
    (callbackHandler "demo-secret"
        { callback_secret := "demo-secret", request_id := "req-1",
          status := "failed", results := some nonEmptyResult }
        (updateJobStatus
          (createJob [] "req-1" 0 { repoUrl := none, analysisMode := "standard" }).1
          "req-1" JobStatus.processing none 1).1 2).1 = CallbackResp.success ∧
    (getJob (callbackHandler "demo-secret"
        { callback_secret := "demo-secret", request_id := "req-1",
          status := "failed", results := some nonEmptyResult }
        (updateJobStatus
          (createJob [] "req-1" 0 { repoUrl := none, analysisMode := "standard" }).1
          "req-1" JobStatus.processing none 1).1 2).2 "req-1").map
      (fun j => j.status) = some JobStatus.failed ∧
    (getJob (callbackHandler "demo-secret"
        { callback_secret := "demo-secret", request_id := "req-1",
          status := "failed", results := some nonEmptyResult }
        (updateJobStatus
          (createJob [] "req-1" 0 { repoUrl := none, analysisMode := "standard" }).1
          "req-1" JobStatus.processing none 1).1 2).2 "req-1").map
      (fun j => j.results.map (fun r => r.issues.length)) = some (some 1) ∧
    (1 : Nat) ≠ 0 := by
  decide

/-- C4 (amended): every job marked `failed` by the in-process pipeline's
failure branch stores the well-formed empty result: `issues` and
`refactoredFiles` are empty arrays (never absent) and the three
`issues_count` fields sum to zero.  A job marked `failed` through
`POST /api/callback` instead stores whatever results the webhook supplied,
which need not be empty (see the counterexample). -/
theorem C4_pipeline_failure_empty_results (store : JobStore) (id : String)
    (t : Nat) (job : AnalysisJob) (hjob : getJob store id = some job) :
    (getJob (pipelineFinish store id (Except.error ()) t) id).map
      (fun j => j.status) = some JobStatus.failed ∧
    (getJob (pipelineFinish store id (Except.error ()) t) id).map
      (fun j => j.results) = some (some (failedResult id)) ∧
    (failedResult id).issues = [] ∧
    (failedResult id).refactoredFiles = [] ∧
    (failedResult id).summary.issues_count.critical +
      (failedResult id).summary.issues_count.major +
      (failedResult id).summary.issues_count.minor = 0 := by
  refine ⟨?_, ?_, rfl, rfl, rfl⟩ <;>
    simp [pipelineFinish, updateJobStatus, hjob, getJob_setJob, failedResult]

/-- C4 witness: the amended theorem applied to a freshly created job whose
pipeline throws. -/
theorem C4_witness :
    getJob (createJob [] "req-1" 0 { repoUrl := none, analysisMode := "standard" }).1
      "req-1" = some (createJob [] "req-1" 0 { repoUrl := none, analysisMode := "standard" }).2 ∧
    (getJob (pipelineFinish
        (createJob [] "req-1" 0 { repoUrl := none, analysisMode := "standard" }).1
        "req-1" (Except.error ()) 1) "req-1").map
      (fun j => j.status) = some JobStatus.failed :=
  ⟨by decide,
    (C4_pipeline_failure_empty_results
      (createJob [] "req-1" 0 { repoUrl := none, analysisMode := "standard" }).1
      "req-1" 1
      (createJob [] "req-1" 0 { repoUrl := none, analysisMode := "standard" }).2
      (by decide)).1⟩

/-- C10 counterexample: a callback with matching secret, an existing job,
and a non-terminal `status` whose payload carries no `results` value
(`results` is `z.any()`, so the key may be absent) leaves the job's stored
results at their old value rather than overwriting them with the payload's
(absent) results; status stays unchanged and `updatedAt` is refreshed. -/
theorem C10_counterexample :
    (getJob (callbackHandler "demo-secret"
        { callback_secret := "demo-secret", request_id := "req-1",
          status := "processing", results := none }
        (updateJobStatus
          (createJob [] "req-1" 0 { repoUrl := none, analysisMode := "standard" }).1
          "req-1" JobStatus.processing (some nonEmptyResult) 1).1 2).2 "req-1").map
      (fun j => j.results) = some (some nonEmptyResult) ∧
    some nonEmptyResult ≠ (none : Option AnalysisResult) ∧
    (getJob (callbackHandler "demo-secret"
        { callback_secret := "demo-secret", request_id := "req-1",
          status := "processing", results := none }
        (updateJobStatus
          (createJob [] "req-1" 0 { repoUrl := none, analysisMode := "standard" }).1
          "req-1" JobStatus.processing (some nonEmptyResult) 1).1 2).2 "req-1").map
      (fun j => j.status) = some JobStatus.processing ∧
    (getJob (callbackHandler "demo-secret"
        { callback_secret := "demo-secret", request_id := "req-1",
          status := "processing", results := none }
        (updateJobStatus
          (createJob [] "req-1" 0 { repoUrl := none, analysisMode := "standard" }).1
          "req-1" JobStatus.processing (some nonEmptyResult) 1).1 2).2 "req-1").map
      (fun j => j.updatedAt) = some 2 := by
  decide

/-- C10 (amended): for a callback with matching secret, an existing job,
and a payload status that is neither "completed" nor "failed", the job's
status is left unchanged and its `updatedAt` is refreshed to the call time;
the `results` field is overwritten with the payload's results whenever the
payload supplies a value, and left at its previous value when the payload's
`results` is absent. -/
theorem C10_callback_frame (secret : String) (p : CallbackPayload)
    (store : JobStore) (now : Nat) (job : AnalysisJob)
    (hsec : p.callback_secret = secret)
    (hjob : getJob store p.request_id = some job)
    (hnc : p.status ≠ "completed") (hnf : p.status ≠ "failed") :
    (callbackHandler secret p store now).1 = CallbackResp.success ∧
    (getJob (callbackHandler secret p store now).2 p.request_id).map
      (fun j => j.status) = some job.status ∧
    (getJob (callbackHandler secret p store now).2 p.request_id).map
      (fun j => j.updatedAt) = some now ∧
    (getJob (callbackHandler secret p store now).2 p.request_id).map
      (fun j => j.results) =
      some (match p.results with
            | some r => some r
            | none => job.results) := by
  refine ⟨?_, ?_, ?_, ?_⟩ <;>
    simp [callbackHandler, hsec, hjob, hnc, hnf, updateJobStatus, getJob_setJob]

/-- C10 witness: the amended theorem applied at a concrete non-terminal
callback carrying a results value. -/
theorem C10_witness :
    ("demo-secret" : String) = "demo-secret" ∧
    getJob (createJob [] "req-1" 0 { repoUrl := none, analysisMode := "standard" }).1
      "req-1" = some (createJob [] "req-1" 0 { repoUrl := none, analysisMode := "standard" }).2 ∧
    ("processing" : String) ≠ "completed" ∧
    ("processing" : String) ≠ "failed" ∧
    (getJob (callbackHandler "demo-secret"
        { callback_secret := "demo-secret", request_id := "req-1",
          status := "processing", results := some nonEmptyResult }
        (createJob [] "req-1" 0 { repoUrl := none, analysisMode := "standard" }).1 4).2
      "req-1").map (fun j => j.results) = some (some nonEmptyResult) :=
  ⟨rfl, by decide, by decide, by decide,
    (C10_callback_frame "demo-secret"
      { callback_secret := "demo-secret", request_id := "req-1",
        status := "processing", results := some nonEmptyResult }
      (createJob [] "req-1" 0 { repoUrl := none, analysisMode := "standard" }).1 4
      (createJob [] "req-1" 0 { repoUrl := none, analysisMode := "standard" }).2
      rfl (by decide) (by decide) (by decide)).2.2.2⟩

/-- C7 counterexample: with the provider rate-limiting every attempt, the
per-file call site (`retryWithBackoff(fn, 3, 2000)`) sleeps 2000 ms and
then 4000 ms before its two retries — the backoff base is 2 seconds, not
the 1 second the claim states (1 second is only the overridden signature
default), under which the delays would have been 1000 ms and 2000 ms. -/
theorem C7_counterexample :
    (analyzeRetryCall allRateLimited).2 = [2000, 4000] ∧
    (analyzeRetryCall allRateLimited).2 ≠ [1000, 2000] := by
  decide

/-- C7 (amended): at the per-file call sites the provider call is retried
only on a rate-limit signal (`error.status === 429`), up to 3 attempts in
total, with exponential backoff delays starting at a base of 2 seconds
(the call sites pass `baseDelay = 2000` ms) and doubling on each retry;
on any other provider error the call is not retried and the error
propagates at once, aborting that file's analysis. -/
theorem C7_retry_only_rate_limit {α : Type} (fn : Nat → Attempt α) :
    (analyzeRetryCall fn).2.length ≤ 2 ∧
    (∀ i, i < (analyzeRetryCall fn).2.length →
      fn i = Attempt.err 429 ∧ (analyzeRetryCall fn).2.getD i 0 = 2000 * 2 ^ i) ∧
    (∀ s : Int, fn 0 = Attempt.err s → s ≠ 429 →
      analyzeRetryCall fn = (some (Attempt.err s), [])) := by
  unfold analyzeRetryCall retryWithBackoff
  rcases h0 : fn 0 with v0 | s0
  · have hres : retryLoop fn 3 2000 0 3 = (some (Attempt.ok v0), []) := by
      simp [retryLoop, h0]
    refine ⟨?_, ?_, ?_⟩
    · rw [hres]
      norm_num
    · intro i hi
      rw [hres] at hi
      simp at hi
    · intro s hs _
      simp at hs
  · by_cases hs0 : s0 = 429
    · subst hs0
      rcases h1 : fn 1 with v1 | s1
      · have hres : retryLoop fn 3 2000 0 3 = (some (Attempt.ok v1), [2000]) := by
          norm_num [retryLoop, h0, h1]
        refine ⟨?_, ?_, ?_⟩
        · rw [hres]
          norm_num
        · intro i hi
          rw [hres] at hi ⊢
          simp at hi
          rcases i with _ | i
          · exact ⟨h0, by norm_num⟩
          · omega
        · intro s hs hne
          injection hs with h429
          exact absurd h429.symm hne
      · by_cases hs1 : s1 = 429
        · subst hs1
          rcases h2 : fn 2 with v2 | s2
          · have hres : retryLoop fn 3 2000 0 3 =
                (some (Attempt.ok v2), [2000, 4000]) := by
              norm_num [retryLoop, h0, h1, h2]
            refine ⟨?_, ?_, ?_⟩
            · rw [hres]
              norm_num
            · intro i hi
              rw [hres] at hi ⊢
              simp at hi
              rcases i with _ | _ | i
              · exact ⟨h0, by norm_num⟩
              · exact ⟨h1, by norm_num⟩
              · omega
            · intro s hs hne
              injection hs with h429
              exact absurd h429.symm hne
          · have hres : retryLoop fn 3 2000 0 3 =
                (some (Attempt.err s2), [2000, 4000]) := by
              norm_num [retryLoop, h0, h1, h2]
            refine ⟨?_, ?_, ?_⟩
            · rw [hres]
              norm_num
            · intro i hi
              rw [hres] at hi ⊢
              simp at hi
              rcases i with _ | _ | i
              · exact ⟨h0, by norm_num⟩
              · exact ⟨h1, by norm_num⟩
              · omega
            · intro s hs hne
              injection hs with h429
              exact absurd h429.symm hne
        · have hres : retryLoop fn 3 2000 0 3 = (some (Attempt.err s1), [2000]) := by
            norm_num [retryLoop, h0, h1, hs1]
          refine ⟨?_, ?_, ?_⟩
          · rw [hres]
            norm_num
          · intro i hi
            rw [hres] at hi ⊢
            simp at hi
            rcases i with _ | i
            · exact ⟨h0, by norm_num⟩
            · omega
          · intro s hs hne
            injection hs with h429
            exact absurd h429.symm hne
    · have hres : retryLoop fn 3 2000 0 3 = (some (Attempt.err s0), []) := by
        simp [retryLoop, h0, hs0]
      refine ⟨?_, ?_, ?_⟩
      · rw [hres]
        norm_num
      · intro i hi
        rw [hres] at hi
        simp at hi
      · intro s hs _
        injection hs with hss
        rw [hres, hss]

/-- C7 witness: the amended theorem applied to the all-rate-limited
provider, giving the first retry's delay of 2000 ms for attempt 0. -/
theorem C7_witness :
    0 < (analyzeRetryCall allRateLimited).2.length ∧
    allRateLimited 0 = Attempt.err 429 ∧
    (analyzeRetryCall allRateLimited).2.getD 0 0 = 2000 * 2 ^ 0 :=
  ⟨by decide,
    ((C7_retry_only_rate_limit allRateLimited).2.1 0 (by decide)).1,
    ((C7_retry_only_rate_limit allRateLimited).2.1 0 (by decide)).2⟩

/-- C9: whenever the refactorer's provider call fails, or no AI client is
configured, the `RefactoredFile` produced for that file has `refactored`
equal to `original` verbatim — the original content is passed through. -/
theorem C9_failed_refactor_returns_original (aiConfigured : Bool)
    (issues : List Issue) (inputs : List RefactorInput) (i : Nat)
    (inp : RefactorInput) (rf : RefactoredFile)
    (hin : inputs.get? i = some inp)
    (hout : (refactorFiles aiConfigured issues inputs).get? i = some rf)
    (hfail : aiConfigured = false ∨ inp.outcome = ProviderOutcome.err) :
    rf.refactored = rf.original := by
  rw [refactorFiles, List.get?_map, hin] at hout
  cases hout
  rcases hfail with hcfg | herr
  · subst hcfg
    rfl
  · cases aiConfigured <;> simp [refactorFileWithGemini, herr]

/-- C9 witness: the theorem applied to one file whose provider call throws
while a client is configured. -/
theorem C9_witness :
    ([sampleRefactorInput].get? 0 = some sampleRefactorInput) ∧
    ((refactorFiles true [] [sampleRefactorInput]).get? 0 =
      some { file := "app.py", original := "print x", refactored := "print x" }) ∧
    ({ file := "app.py", original := "print x", refactored := "print x" } :
      RefactoredFile).refactored =
    ({ file := "app.py", original := "print x", refactored := "print x" } :
      RefactoredFile).original :=
  ⟨rfl, rfl,
    C9_failed_refactor_returns_original true [] [sampleRefactorInput] 0
      sampleRefactorInput
      { file := "app.py", original := "print x", refactored := "print x" }
      rfl rfl (Or.inr rfl)⟩

theorem natDigitsAux_small (n : Nat) (acc : List Char) (h : n < 10) :
    natDigitsAux n acc = decDigitChar n :: acc := by
  unfold natDigitsAux
  rw [if_pos h]

theorem natDigitsAux_big (n : Nat) (acc : List Char) (h : ¬ n < 10) :
    natDigitsAux n acc = natDigitsAux (n / 10) (decDigitChar (n % 10) :: acc) := by
  conv_lhs => rw [natDigitsAux]
  rw [if_neg h]

theorem natDigitsAux_append (n : Nat) : ∀ acc : List Char,
    natDigitsAux n acc = natDigits n ++ acc := by
  induction n using Nat.strong_induction_on with
  | _ n ih =>
    intro acc
    by_cases h : n < 10
    · rw [natDigitsAux_small n acc h, natDigits, natDigitsAux_small n [] h]
      rfl
    · rw [natDigitsAux_big n acc h, natDigits, natDigitsAux_big n [] h,
        ih (n / 10) (Nat.div_lt_self (by omega) (by omega)) (decDigitChar (n % 10) :: acc),
        ih (n / 10) (Nat.div_lt_self (by omega) (by omega)) [decDigitChar (n % 10)]]
      simp

theorem toNat_ofNat_small (n : Nat) (h : n < 55296) : (Char.ofNat n).toNat = n := by
  unfold Char.ofNat Char.toNat
  split
  · simp [Char.ofNatAux, UInt32.toNat, BitVec.toNat_ofNatLt]
  · next hn =>
    exfalso
    exact hn (Or.inl (by omega))

theorem isDigitChar_decDigitChar (m : Nat) (h : m < 10) :
    isDigitChar (decDigitChar m) = true := by
  have := toNat_ofNat_small (48 + m) (by omega)
  simp [isDigitChar, decDigitChar, this]
  omega

theorem digitVal_decDigitChar (m : Nat) (h : m < 10) :
    digitVal (decDigitChar m) = m := by
  have := toNat_ofNat_small (48 + m) (by omega)
  simp [digitVal, decDigitChar, this]

theorem natDigits_all_digits (n : Nat) :
    ∀ c ∈ natDigits n, isDigitChar c = true := by
  induction n using Nat.strong_induction_on with
  | _ n ih =>
    intro c hc
    by_cases h : n < 10
    · rw [natDigits, natDigitsAux_small n [] h] at hc
      simp at hc
      subst hc
      exact isDigitChar_decDigitChar n h
    · rw [natDigits, natDigitsAux_big n [] h,
        natDigitsAux_append (n / 10) _] at hc
      rcases List.mem_append.mp hc with h1 | h2
      · exact ih (n / 10) (Nat.div_lt_self (by omega) (by omega)) c h1
      · simp at h2
        subst h2
        exact isDigitChar_decDigitChar (n % 10) (Nat.mod_lt n (by omega))

theorem natDigits_ne_nil (n : Nat) : natDigits n ≠ [] := by
  by_cases h : n < 10
  · rw [natDigits, natDigitsAux_small n [] h]
    simp
  · rw [natDigits, natDigitsAux_big n [] h, natDigitsAux_append (n / 10) _]
    simp

theorem foldl_digits_natDigits (n : Nat) : ∀ a : Nat,
    (natDigits n).foldl (fun a c => 10 * a + digitVal c) a =
      a * 10 ^ (natDigits n).length + n := by
  induction n using Nat.strong_induction_on with
  | _ n ih =>
    intro a
    by_cases h : n < 10
    · rw [natDigits, natDigitsAux_small n [] h]
      simp [digitVal_decDigitChar n h]
      ring
    · rw [natDigits, natDigitsAux_big n [] h, natDigitsAux_append (n / 10) _]
      rw [List.foldl_append,
        ih (n / 10) (Nat.div_lt_self (by omega) (by omega)) a]
      simp [digitVal_decDigitChar (n % 10) (Nat.mod_lt n (by omega))]
      have hmod : 10 * (n / 10) + n % 10 = n := Nat.div_add_mod n 10
      ring_nf
      omega

theorem digitsVal_natDigits (n : Nat) : digitsVal (natDigits n) = n := by
  rw [digitsVal, foldl_digits_natDigits n 0]
  simp

theorem takeWhile_all_append (p : Char → Bool) (xs : List Char) :
    ∀ rest : List Char, (∀ c ∈ xs, p c = true) → headNotP p rest →
      (xs ++ rest).takeWhile p = xs ∧ (xs ++ rest).dropWhile p = rest := by
  induction xs with
  | nil =>
    intro rest _ hrest
    cases rest with
    | nil => simp
    | cons r rs =>
      simp [headNotP] at hrest
      simp [List.takeWhile_cons, List.dropWhile_cons, hrest]
  | cons x xs ih =>
    intro rest hxs hrest
    have hx : p x = true := hxs x (by simp)
    have := ih rest (fun c hc => hxs c (by simp [hc])) hrest
    simp [List.takeWhile_cons, List.dropWhile_cons, hx, this.1, this.2]

theorem parseNatTok_natDigits (n : Nat) (rest : List Char)
    (hrest : headNotP isDigitChar rest) :
    parseNatTok (natDigits n ++ rest) = some (n, rest) := by
  have htd := takeWhile_all_append isDigitChar (natDigits n) rest
    (natDigits_all_digits n) hrest
  obtain ⟨c, cs, hc⟩ : ∃ c cs, natDigits n = c :: cs := by
    cases h : natDigits n with
    | nil => exact absurd h (natDigits_ne_nil n)
    | cons c cs => exact ⟨c, cs, rfl⟩
  rw [parseNatTok, htd.1, htd.2, hc]
  show some (digitsVal (c :: cs), rest) = some (n, rest)
  rw [← hc, digitsVal_natDigits]

theorem parseNum_intDigits (n : Int) (rest : List Char)
    (hrest : headNotP isDigitChar rest) :
    parseNum (intDigits n ++ rest) = some (n, rest) := by
  by_cases hneg : n < 0
  · rw [intDigits, if_pos hneg]
    show parseNum ('-' :: (natDigits (-n).toNat ++ rest)) = some (n, rest)
    rw [parseNum]
    rw [parseNatTok_natDigits _ rest hrest]
    simp
    omega
  · rw [intDigits, if_neg hneg]
    obtain ⟨c, cs, hc⟩ : ∃ c cs, natDigits n.toNat = c :: cs := by
      cases h : natDigits n.toNat with
      | nil => exact absurd h (natDigits_ne_nil n.toNat)
      | cons c cs => exact ⟨c, cs, rfl⟩
    have hdig : isDigitChar c = true := by
      apply natDigits_all_digits n.toNat
      rw [hc]
      simp
    have hcne : c ≠ '-' := by
      intro he
      subst he
      simp [isDigitChar] at hdig
    rw [hc, List.cons_append, parseNum]
    · rw [← List.cons_append, ← hc, parseNatTok_natDigits _ rest hrest]
      simp
      omega
    · intro r h
      injection h with h1 _
      exact hcne h1

theorem hexVal_hexDigitChar (x : Nat) (h : x < 16) :
    hexVal (hexDigitChar x) = some x := by
  interval_cases x <;> decide

theorem char_eq_iff_toNat (c : Char) (m : Nat) (hm : m < 55296)
    (h : c.toNat = m) : c = Char.ofNat m := by
  have := Char.ofNat_toNat c
  rw [← h, this]

theorem hexVal_zero : hexVal '0' = some 0 := by decide

set_option maxHeartbeats 1000000 in
theorem parseStrBody_ord (c : Char) (rest : List Char)
    (h1 : c ≠ '"') (h2 : c ≠ '\\') (h3 : ¬ c.toNat < 32) :
    parseStrBody (c :: rest) = (parseStrBody rest).map (fun p => (c :: p.1, p.2)) := by
  rw [parseStrBody.eq_def]
  split
  all_goals rename_i heq
  all_goals first
    | (injection heq with ha hb
       first
         | exact absurd ha h1
         | exact absurd ha h2
         | (subst ha
            subst hb
            rw [if_neg h3]))
    | simp at heq

theorem parseStrBody_escape (l : List Char) (rest : List Char) :
    parseStrBody (escapeList l ++ '"' :: rest) = some (l, rest) := by
  induction l with
  | nil => rfl
  | cons c l ih =>
    have hel : escapeList (c :: l) = escapeChar c ++ escapeList l := rfl
    rw [hel, List.append_assoc]
    unfold escapeChar
    by_cases h1 : c = '"'
    · subst h1
      simp only [if_pos rfl]
      show (parseStrBody (escapeList l ++ '"' :: rest)).map _ = _
      rw [ih]
      rfl
    · rw [if_neg h1]
      by_cases h2 : c = '\\'
      · subst h2
        rw [if_pos rfl]
        show (parseStrBody (escapeList l ++ '"' :: rest)).map _ = _
        rw [ih]
        rfl
      · rw [if_neg h2]
        by_cases h3 : c = '\n'
        · subst h3
          rw [if_pos rfl]
          show (parseStrBody (escapeList l ++ '"' :: rest)).map _ = _
          rw [ih]
          rfl
        · rw [if_neg h3]
          by_cases h4 : c = '\t'
          · subst h4
            rw [if_pos rfl]
            show (parseStrBody (escapeList l ++ '"' :: rest)).map _ = _
            rw [ih]
            rfl
          · rw [if_neg h4]
            by_cases h5 : c = '\r'
            · subst h5
              rw [if_pos rfl]
              show (parseStrBody (escapeList l ++ '"' :: rest)).map _ = _
              rw [ih]
              rfl
            · rw [if_neg h5]
              by_cases h6 : c.toNat = 8
              · rw [if_pos h6]
                show (parseStrBody (escapeList l ++ '"' :: rest)).map _ = _
                rw [ih]
                have hc : c = Char.ofNat 8 := char_eq_iff_toNat c 8 (by omega) h6
                rw [← hc]
                rfl
              · rw [if_neg h6]
                by_cases h7 : c.toNat = 12
                · rw [if_pos h7]
                  show (parseStrBody (escapeList l ++ '"' :: rest)).map _ = _
                  rw [ih]
                  have hc : c = Char.ofNat 12 := char_eq_iff_toNat c 12 (by omega) h7
                  rw [← hc]
                  rfl
                · rw [if_neg h7]
                  by_cases h8 : c.toNat < 32
                  · rw [if_pos h8]
                    show (match hexVal '0', hexVal '0',
                        hexVal (hexDigitChar (c.toNat / 16)),
                        hexVal (hexDigitChar (c.toNat % 16)) with
                      | some a, some b, some c', some d =>
                        (parseStrBody (escapeList l ++ '"' :: rest)).map
                          (fun p : List Char × List Char =>
                            (Char.ofNat (4096 * a + 256 * b + 16 * c' + d) :: p.1, p.2))
                      | _, _, _, _ => none) = some (c :: l, rest)
                    rw [hexVal_zero, hexVal_hexDigitChar (c.toNat / 16) (by omega),
                      hexVal_hexDigitChar (c.toNat % 16) (by omega)]
                    show (parseStrBody (escapeList l ++ '"' :: rest)).map _ = _
                    rw [ih]
                    show some (Char.ofNat (4096 * 0 + 256 * 0 +
                        16 * (c.toNat / 16) + c.toNat % 16) :: l, rest) =
                      some (c :: l, rest)
                    have hdm : 4096 * 0 + 256 * 0 + 16 * (c.toNat / 16) + c.toNat % 16 = c.toNat := by
                      omega
                    rw [hdm, Char.ofNat_toNat]
                  · rw [if_neg h8]
                    show parseStrBody (c :: (escapeList l ++ '"' :: rest)) = _
                    rw [parseStrBody_ord c _ h1 h2 h8, ih]
                    rfl


theorem string_mk_data (s : String) : String.mk s.data = s := by
  cases s
  rfl

theorem skipWs_cons_ws (c : Char) (cs : List Char) (h : isWsChar c = true) :
    skipWs (c :: cs) = skipWs cs := by
  simp [skipWs, List.dropWhile_cons, h]

theorem skipWs_cons_not (c : Char) (cs : List Char) (h : isWsChar c = false) :
    skipWs (c :: cs) = c :: cs := by
  simp [skipWs, List.dropWhile_cons, h]

theorem skipWs_replicate_space (k : Nat) (cs : List Char) :
    skipWs (List.replicate k ' ' ++ cs) = skipWs cs := by
  induction k with
  | zero => rfl
  | succ k ih =>
    rw [List.replicate_succ, List.cons_append, skipWs_cons_ws _ _ (by decide), ih]

theorem skipWs_indent (d : Nat) (cs : List Char) :
    skipWs (indentChars d ++ cs) = skipWs cs :=
  skipWs_replicate_space (2 * d) cs

theorem skipWs_nl_indent (d : Nat) (cs : List Char) :
    skipWs ('\n' :: (indentChars d ++ cs)) = skipWs cs := by
  rw [skipWs_cons_ws _ _ (by decide), skipWs_indent]

theorem parseVal_ws_congr (fuel : Nat) (cs cs2 : List Char)
    (h : skipWs cs = skipWs cs2) : parseVal fuel cs = parseVal fuel cs2 := by
  cases fuel with
  | zero => rfl
  | succ f =>
    simp only [parseVal]
    rw [h]

theorem digit_not_special (c : Char) (h : isDigitChar c = true) :
    isWsChar c = false ∧ c ≠ ']' ∧ c ≠ '\x7d' ∧ c ≠ '"' ∧ c ≠ '[' ∧ c ≠ '\x7b' := by
  refine ⟨?_, ?_, ?_, ?_, ?_, ?_⟩
  · simp only [isWsChar, decide_eq_false_iff_not]
    rintro (h' | h' | h' | h') <;> (subst h'; exact absurd h (by decide))
  all_goals (intro h'; subst h'; exact absurd h (by decide))

theorem natDigits_head (n : Nat) :
    ∃ c cs, natDigits n = c :: cs ∧ isDigitChar c = true := by
  obtain ⟨c, cs, hc⟩ : ∃ c cs, natDigits n = c :: cs := by
    cases h : natDigits n with
    | nil => exact absurd h (natDigits_ne_nil n)
    | cons c cs => exact ⟨c, cs, rfl⟩
  exact ⟨c, cs, hc, natDigits_all_digits n c (by rw [hc]; simp)⟩

theorem renderJson_head (j : Json) (d : Nat) :
    ∃ c cs, renderJson j d = c :: cs ∧ isWsChar c = false ∧ c ≠ ']' ∧ c ≠ '\x7d' := by
  cases j with
  | str s => exact ⟨'"', _, rfl, by decide, by decide, by decide⟩
  | num n =>
    show ∃ c cs, intDigits n = c :: cs ∧ _
    rw [intDigits]
    by_cases h : n < 0
    · rw [if_pos h]
      exact ⟨'-', _, rfl, by decide, by decide, by decide⟩
    · rw [if_neg h]
      obtain ⟨c, cs, hc, hdig⟩ := natDigits_head n.toNat
      obtain ⟨hws, hrb, hrbr, _, _, _⟩ := digit_not_special c hdig
      exact ⟨c, cs, hc, hws, hrb, hrbr⟩
  | arr es =>
    cases es with
    | nil => exact ⟨'[', _, rfl, by decide, by decide, by decide⟩
    | cons e es => exact ⟨'[', _, rfl, by decide, by decide, by decide⟩
  | obj fs =>
    cases fs with
    | nil => exact ⟨'\x7b', _, rfl, by decide, by decide, by decide⟩
    | cons f fs => exact ⟨'\x7b', _, rfl, by decide, by decide, by decide⟩

theorem parseVal_num_head (f : Nat) (c : Char) (tl : List Char)
    (hws : isWsChar c = false) (hq : c ≠ '"') (hlb : c ≠ '[') (hlbr : c ≠ '\x7b')
    (hcond : c = '-' ∨ isDigitChar c = true) :
    parseVal (f + 1) (c :: tl) =
      (parseNum (c :: tl)).map (fun p => (Json.num p.1, p.2)) := by
  simp only [parseVal]
  rw [skipWs_cons_not c tl hws]
  split
  · rename_i heq
    simp at heq
  · rename_i heq
    injection heq with ha hb
    exact absurd ha hq
  · rename_i heq
    injection heq with ha hb
    exact absurd ha hlb
  · rename_i heq
    injection heq with ha hb
    exact absurd ha hlbr
  · rename_i heq
    injection heq with ha hb
    subst ha
    subst hb
    rw [if_pos hcond]

theorem goodRest_nl (X : List Char) : headNotP isDigitChar ('\n' :: X) := by
  show isDigitChar '\n' = false
  decide

theorem goodRest_comma (X : List Char) : headNotP isDigitChar (',' :: X) := by
  show isDigitChar ',' = false
  decide

theorem parse_render_main : ∀ n : Nat,
    (∀ j : Json, fuelNeed j ≤ n → ∀ d rest fuel, fuelNeed j ≤ fuel →
      headNotP isDigitChar rest →
      parseVal fuel (renderJson j d ++ rest) = some (j, rest)) ∧
    (∀ es : List Json, itemsFuel es ≤ n → es ≠ [] → ∀ d rest fuel, itemsFuel es ≤ fuel →
      parseItems fuel ('\n' :: (renderItems es (d + 1) ++
        '\n' :: (indentChars d ++ ']' :: rest))) = some (es, rest)) ∧
    (∀ fs : List (String × Json), fieldsFuel fs ≤ n → fs ≠ [] → ∀ d rest fuel, fieldsFuel fs ≤ fuel →
      parseFields fuel ('\n' :: (renderFields fs (d + 1) ++
        '\n' :: (indentChars d ++ '\x7d' :: rest))) = some (fs, rest)) := by
  intro n
  induction n using Nat.strong_induction_on with
  | _ n ih =>
  refine ⟨?_, ?_, ?_⟩
  · -- values
    intro j hj d rest fuel hfuel hrest
    match j with
    | Json.str s =>
      cases fuel with
      | zero => simp [fuelNeed] at hfuel
      | succ f =>
        have hr : renderJson (Json.str s) d ++ rest =
            '"' :: (escapeList s.data ++ ('"' :: rest)) := by
          simp [renderJson]
        rw [hr]
        show (parseStrBody (escapeList s.data ++ ('"' :: rest))).map
          (fun p => (Json.str (String.mk p.1), p.2)) = some (Json.str s, rest)
        rw [parseStrBody_escape s.data rest]
        show some (Json.str (String.mk s.data), rest) = some (Json.str s, rest)
        rw [string_mk_data]
    | Json.num m =>
      cases fuel with
      | zero => simp [fuelNeed] at hfuel
      | succ f =>
        by_cases hneg : m < 0
        · have hr : renderJson (Json.num m) d ++ rest =
              '-' :: (natDigits (-m).toNat ++ rest) := by
            simp [renderJson, intDigits, if_pos hneg]
          rw [hr]
          rw [parseVal_num_head f '-' _ (by decide) (by decide) (by decide)
            (by decide) (Or.inl rfl)]
          have hback : '-' :: (natDigits (-m).toNat ++ rest) = intDigits m ++ rest := by
            simp [intDigits, if_pos hneg]
          rw [hback, parseNum_intDigits m rest hrest]
          rfl
        · obtain ⟨c, cs, hc, hdig⟩ := natDigits_head m.toNat
          obtain ⟨hws, _, _, hq, hlb, hlbr⟩ := digit_not_special c hdig
          have hr : renderJson (Json.num m) d ++ rest = c :: (cs ++ rest) := by
            simp [renderJson, intDigits, if_neg hneg, hc]
          rw [hr, parseVal_num_head f c _ hws hq hlb hlbr (Or.inr hdig)]
          have hback : c :: (cs ++ rest) = intDigits m ++ rest := by
            simp [intDigits, if_neg hneg, hc]
          rw [hback, parseNum_intDigits m rest hrest]
          rfl
    | Json.arr [] =>
      cases fuel with
      | zero => simp [fuelNeed] at hfuel
      | succ f =>
        have hr : renderJson (Json.arr []) d ++ rest = '[' :: (']' :: rest) := by
          simp [renderJson]
        rw [hr]
        rfl
    | Json.arr (e :: es) =>
      cases fuel with
      | zero => simp [fuelNeed] at hfuel
      | succ f =>
        have hif : itemsFuel (e :: es) ≤ f := by
          simp only [fuelNeed] at hfuel
          omega
        have hlt : itemsFuel (e :: es) < n := by
          simp only [fuelNeed] at hj
          omega
        have hPI := (ih (itemsFuel (e :: es)) hlt).2.1 (e :: es) (le_refl _)
          (by simp) d rest f hif
        have hr : renderJson (Json.arr (e :: es)) d ++ rest =
            '[' :: ('\n' :: (renderItems (e :: es) (d + 1) ++
              '\n' :: (indentChars d ++ ']' :: rest))) := by
          simp [renderJson]
        rw [hr]
        obtain ⟨c0, cs0, hce, hws0, hnrb, _⟩ := renderJson_head e (d + 1)
        have hz : ∃ Z, skipWs ('\n' :: (renderItems (e :: es) (d + 1) ++
            '\n' :: (indentChars d ++ ']' :: rest))) = c0 :: Z := by
          cases es with
          | nil =>
            refine ⟨cs0 ++ ('\n' :: (indentChars d ++ ']' :: rest)), ?_⟩
            have hri : '\n' :: (renderItems [e] (d + 1) ++
                '\n' :: (indentChars d ++ ']' :: rest)) =
                '\n' :: (indentChars (d + 1) ++ (renderJson e (d + 1) ++
                  ('\n' :: (indentChars d ++ ']' :: rest)))) := by
              simp [renderItems]
            rw [hri, skipWs_nl_indent, hce, List.cons_append,
              skipWs_cons_not _ _ hws0]
          | cons e2 es2 =>
            refine ⟨cs0 ++ (',' :: ('\n' :: (renderItems (e2 :: es2) (d + 1) ++
              '\n' :: (indentChars d ++ ']' :: rest)))), ?_⟩
            have hri : '\n' :: (renderItems (e :: e2 :: es2) (d + 1) ++
                '\n' :: (indentChars d ++ ']' :: rest)) =
                '\n' :: (indentChars (d + 1) ++ (renderJson e (d + 1) ++
                  (',' :: ('\n' :: (renderItems (e2 :: es2) (d + 1) ++
                    '\n' :: (indentChars d ++ ']' :: rest)))))) := by
              simp [renderItems]
            rw [hri, skipWs_nl_indent, hce, List.cons_append,
              skipWs_cons_not _ _ hws0]
        obtain ⟨Z, hskipTL⟩ := hz
        show (match skipWs ('\n' :: (renderItems (e :: es) (d + 1) ++
            '\n' :: (indentChars d ++ ']' :: rest))) with
          | ']' :: rest2 => some (Json.arr [], rest2)
          | _ => (parseItems f ('\n' :: (renderItems (e :: es) (d + 1) ++
              '\n' :: (indentChars d ++ ']' :: rest)))).map
              (fun p : List Json × List Char => (Json.arr p.1, p.2))) =
          some (Json.arr (e :: es), rest)
        rw [hskipTL]
        split
        · rename_i heq
          injection heq with ha hb
          exact absurd ha hnrb
        · rw [hPI]
          rfl
    | Json.obj [] =>
      cases fuel with
      | zero => simp [fuelNeed] at hfuel
      | succ f =>
        have hr : renderJson (Json.obj []) d ++ rest = '\x7b' :: ('\x7d' :: rest) := by
          simp [renderJson]
        rw [hr]
        rfl
    | Json.obj (fld :: flds) =>
      cases fuel with
      | zero => simp [fuelNeed] at hfuel
      | succ f =>
        have hif : fieldsFuel (fld :: flds) ≤ f := by
          simp only [fuelNeed] at hfuel
          omega
        have hlt : fieldsFuel (fld :: flds) < n := by
          simp only [fuelNeed] at hj
          omega
        have hPF := (ih (fieldsFuel (fld :: flds)) hlt).2.2 (fld :: flds) (le_refl _)
          (by simp) d rest f hif
        have hr : renderJson (Json.obj (fld :: flds)) d ++ rest =
            '\x7b' :: ('\n' :: (renderFields (fld :: flds) (d + 1) ++
              '\n' :: (indentChars d ++ '\x7d' :: rest))) := by
          simp [renderJson]
        rw [hr]
        have hz : ∃ Z, skipWs ('\n' :: (renderFields (fld :: flds) (d + 1) ++
            '\n' :: (indentChars d ++ '\x7d' :: rest))) = '"' :: Z := by
          obtain ⟨k, v⟩ := fld
          cases flds with
          | nil =>
            refine ⟨escapeList k.data ++ ('"' :: (':' :: (' ' :: (renderJson v (d + 1) ++
              ('\n' :: (indentChars d ++ '\x7d' :: rest)))))), ?_⟩
            have hri : '\n' :: (renderFields [(k, v)] (d + 1) ++
                '\n' :: (indentChars d ++ '\x7d' :: rest)) =
                '\n' :: (indentChars (d + 1) ++ ('"' :: (escapeList k.data ++
                  ('"' :: (':' :: (' ' :: (renderJson v (d + 1) ++
                    ('\n' :: (indentChars d ++ '\x7d' :: rest))))))))) := by
              simp [renderFields]
            rw [hri, skipWs_nl_indent, skipWs_cons_not _ _ (by decide)]
          | cons fld2 flds2 =>
            refine ⟨escapeList k.data ++ ('"' :: (':' :: (' ' :: (renderJson v (d + 1) ++
              (',' :: ('\n' :: (renderFields (fld2 :: flds2) (d + 1) ++
                '\n' :: (indentChars d ++ '\x7d' :: rest)))))))), ?_⟩
            have hri : '\n' :: (renderFields ((k, v) :: fld2 :: flds2) (d + 1) ++
                '\n' :: (indentChars d ++ '\x7d' :: rest)) =
                '\n' :: (indentChars (d + 1) ++ ('"' :: (escapeList k.data ++
                  ('"' :: (':' :: (' ' :: (renderJson v (d + 1) ++
                    (',' :: ('\n' :: (renderFields (fld2 :: flds2) (d + 1) ++
                      '\n' :: (indentChars d ++ '\x7d' :: rest))))))))))) := by
              simp [renderFields]
            rw [hri, skipWs_nl_indent, skipWs_cons_not _ _ (by decide)]
        obtain ⟨Z, hskipTL⟩ := hz
        show (match skipWs ('\n' :: (renderFields (fld :: flds) (d + 1) ++
            '\n' :: (indentChars d ++ '\x7d' :: rest))) with
          | '\x7d' :: rest2 => some (Json.obj [], rest2)
          | _ => (parseFields f ('\n' :: (renderFields (fld :: flds) (d + 1) ++
              '\n' :: (indentChars d ++ '\x7d' :: rest)))).map
              (fun p : List (String × Json) × List Char => (Json.obj p.1, p.2))) =
          some (Json.obj (fld :: flds), rest)
        rw [hskipTL]
        split
        · rename_i heq
          injection heq with ha hb
          exact absurd ha (by decide)
        · rw [hPF]
          rfl
  · -- array items
    intro es hes hne d rest fuel hfuel
    match es, hne with
    | e :: es', _ =>
      cases fuel with
      | zero =>
        simp only [itemsFuel] at hfuel
        omega
      | succ f =>
        have hfe : fuelNeed e ≤ f := by
          simp only [itemsFuel] at hfuel
          omega
        have hlt_e : fuelNeed e < n := by
          simp only [itemsFuel] at hes
          omega
        have hPV := (ih (fuelNeed e) hlt_e).1 e (le_refl _)
        simp only [parseItems]
        cases es' with
        | nil =>
          have hpv : parseVal f ('\n' :: (renderItems [e] (d + 1) ++
              '\n' :: (indentChars d ++ ']' :: rest))) =
              some (e, '\n' :: (indentChars d ++ ']' :: rest)) := by
            have hsw : skipWs ('\n' :: (renderItems [e] (d + 1) ++
                '\n' :: (indentChars d ++ ']' :: rest))) =
                skipWs (renderJson e (d + 1) ++
                  ('\n' :: (indentChars d ++ ']' :: rest))) := by
              have hri : '\n' :: (renderItems [e] (d + 1) ++
                  '\n' :: (indentChars d ++ ']' :: rest)) =
                  '\n' :: (indentChars (d + 1) ++ (renderJson e (d + 1) ++
                    ('\n' :: (indentChars d ++ ']' :: rest)))) := by
                simp [renderItems]
              rw [hri, skipWs_nl_indent]
            rw [parseVal_ws_congr f _ _ hsw]
            exact hPV (d + 1) _ f hfe (goodRest_nl _)
          rw [hpv]
          show (match skipWs ('\n' :: (indentChars d ++ ']' :: rest)) with
            | ',' :: rest2 => (parseItems f rest2).map
                (fun p : List Json × List Char => (e :: p.1, p.2))
            | ']' :: rest2 => some ([e], rest2)
            | _ => none) = some ([e], rest)
          rw [skipWs_nl_indent, skipWs_cons_not _ _ (by decide)]
          rfl
        | cons e2 es2 =>
          have hif2 : itemsFuel (e2 :: es2) ≤ f := by
            simp only [itemsFuel] at hfuel ⊢
            omega
          have hlt2 : itemsFuel (e2 :: es2) < n := by
            simp only [itemsFuel] at hes ⊢
            omega
          have hPI2 := (ih (itemsFuel (e2 :: es2)) hlt2).2.1 (e2 :: es2) (le_refl _)
            (by simp) d rest f hif2
          have hpv : parseVal f ('\n' :: (renderItems (e :: e2 :: es2) (d + 1) ++
              '\n' :: (indentChars d ++ ']' :: rest))) =
              some (e, ',' :: ('\n' :: (renderItems (e2 :: es2) (d + 1) ++
                '\n' :: (indentChars d ++ ']' :: rest)))) := by
            have hsw : skipWs ('\n' :: (renderItems (e :: e2 :: es2) (d + 1) ++
                '\n' :: (indentChars d ++ ']' :: rest))) =
                skipWs (renderJson e (d + 1) ++
                  (',' :: ('\n' :: (renderItems (e2 :: es2) (d + 1) ++
                    '\n' :: (indentChars d ++ ']' :: rest))))) := by
              have hri : '\n' :: (renderItems (e :: e2 :: es2) (d + 1) ++
                  '\n' :: (indentChars d ++ ']' :: rest)) =
                  '\n' :: (indentChars (d + 1) ++ (renderJson e (d + 1) ++
                    (',' :: ('\n' :: (renderItems (e2 :: es2) (d + 1) ++
                      '\n' :: (indentChars d ++ ']' :: rest)))))) := by
                simp [renderItems]
              rw [hri, skipWs_nl_indent]
            rw [parseVal_ws_congr f _ _ hsw]
            exact hPV (d + 1) _ f hfe (goodRest_comma _)
          rw [hpv]
          show (match skipWs (',' :: ('\n' :: (renderItems (e2 :: es2) (d + 1) ++
              '\n' :: (indentChars d ++ ']' :: rest)))) with
            | ',' :: rest2 => (parseItems f rest2).map
                (fun p : List Json × List Char => (e :: p.1, p.2))
            | ']' :: rest2 => some ([e], rest2)
            | _ => none) = some (e :: e2 :: es2, rest)
          rw [skipWs_cons_not _ _ (by decide)]
          show (parseItems f ('\n' :: (renderItems (e2 :: es2) (d + 1) ++
              '\n' :: (indentChars d ++ ']' :: rest)))).map
              (fun p : List Json × List Char => (e :: p.1, p.2)) =
            some (e :: e2 :: es2, rest)
          rw [hPI2]
          rfl
  · -- object fields
    intro fs hfs hne d rest fuel hfuel
    match fs, hne with
    | (k, v) :: fs', _ =>
      cases fuel with
      | zero =>
        simp only [fieldsFuel] at hfuel
        omega
      | succ f =>
        have hfv : fuelNeed v ≤ f := by
          simp only [fieldsFuel] at hfuel
          omega
        have hlt_v : fuelNeed v < n := by
          simp only [fieldsFuel] at hfs
          omega
        have hPV := (ih (fuelNeed v) hlt_v).1 v (le_refl _)
        simp only [parseFields]
        cases fs' with
        | nil =>
          have hskip : skipWs ('\n' :: (renderFields [(k, v)] (d + 1) ++
              '\n' :: (indentChars d ++ '\x7d' :: rest))) =
              '"' :: (escapeList k.data ++ ('"' :: (':' :: (' ' ::
                (renderJson v (d + 1) ++
                  ('\n' :: (indentChars d ++ '\x7d' :: rest))))))) := by
            have hri : '\n' :: (renderFields [(k, v)] (d + 1) ++
                '\n' :: (indentChars d ++ '\x7d' :: rest)) =
                '\n' :: (indentChars (d + 1) ++ ('"' :: (escapeList k.data ++
                  ('"' :: (':' :: (' ' :: (renderJson v (d + 1) ++
                    ('\n' :: (indentChars d ++ '\x7d' :: rest))))))))) := by
              simp [renderFields]
            rw [hri, skipWs_nl_indent, skipWs_cons_not _ _ (by decide)]
          rw [hskip]
          show (match parseStrBody (escapeList k.data ++ ('"' :: (':' :: (' ' ::
              (renderJson v (d + 1) ++
                ('\n' :: (indentChars d ++ '\x7d' :: rest))))))) with
            | none => none
            | some (key, rest1) =>
              match skipWs rest1 with
              | ':' :: rest2 =>
                (match parseVal f rest2 with
                 | none => none
                 | some (w, rest3) =>
                   match skipWs rest3 with
                   | ',' :: rest4 =>
                     (parseFields f rest4).map
                       (fun p : List (String × Json) × List Char =>
                         ((String.mk key, w) :: p.1, p.2))
                   | '\x7d' :: rest4 => some ([(String.mk key, w)], rest4)
                   | _ => none)
              | _ => none) = some ([(k, v)], rest)
          rw [parseStrBody_escape k.data _]
          show (match skipWs (':' :: (' ' :: (renderJson v (d + 1) ++
              ('\n' :: (indentChars d ++ '\x7d' :: rest))))) with
            | ':' :: rest2 =>
              (match parseVal f rest2 with
               | none => none
               | some (w, rest3) =>
                 match skipWs rest3 with
                 | ',' :: rest4 =>
                   (parseFields f rest4).map
                     (fun p : List (String × Json) × List Char =>
                       ((String.mk k.data, w) :: p.1, p.2))
                 | '\x7d' :: rest4 => some ([(String.mk k.data, w)], rest4)
                 | _ => none)
            | _ => none) = some ([(k, v)], rest)
          rw [skipWs_cons_not _ _ (by decide)]
          have hpv : parseVal f (' ' :: (renderJson v (d + 1) ++
              ('\n' :: (indentChars d ++ '\x7d' :: rest)))) =
              some (v, '\n' :: (indentChars d ++ '\x7d' :: rest)) := by
            have hsw : skipWs (' ' :: (renderJson v (d + 1) ++
                ('\n' :: (indentChars d ++ '\x7d' :: rest)))) =
                skipWs (renderJson v (d + 1) ++
                  ('\n' :: (indentChars d ++ '\x7d' :: rest))) :=
              skipWs_cons_ws _ _ (by decide)
            rw [parseVal_ws_congr f _ _ hsw]
            exact hPV (d + 1) _ f hfv (goodRest_nl _)
          show (match parseVal f (' ' :: (renderJson v (d + 1) ++
              ('\n' :: (indentChars d ++ '\x7d' :: rest)))) with
            | none => none
            | some (w, rest3) =>
              match skipWs rest3 with
              | ',' :: rest4 =>
                (parseFields f rest4).map
                  (fun p : List (String × Json) × List Char =>
                    ((String.mk k.data, w) :: p.1, p.2))
              | '\x7d' :: rest4 => some ([(String.mk k.data, w)], rest4)
              | _ => none) = some ([(k, v)], rest)
          rw [hpv]
          show (match skipWs ('\n' :: (indentChars d ++ '\x7d' :: rest)) with
            | ',' :: rest4 =>
              (parseFields f rest4).map
                (fun p : List (String × Json) × List Char =>
                  ((String.mk k.data, v) :: p.1, p.2))
            | '\x7d' :: rest4 => some ([(String.mk k.data, v)], rest4)
            | _ => none) = some ([(k, v)], rest)
          rw [skipWs_nl_indent, skipWs_cons_not _ _ (by decide)]
          show some ([(String.mk k.data, v)], rest) = some ([(k, v)], rest)
          rw [string_mk_data]
        | cons fld2 flds2 =>
          have hif2 : fieldsFuel (fld2 :: flds2) ≤ f := by
            simp only [fieldsFuel] at hfuel ⊢
            omega
          have hlt2 : fieldsFuel (fld2 :: flds2) < n := by
            simp only [fieldsFuel] at hfs ⊢
            omega
          have hPF2 := (ih (fieldsFuel (fld2 :: flds2)) hlt2).2.2 (fld2 :: flds2)
            (le_refl _) (by simp) d rest f hif2
          have hskip : skipWs ('\n' :: (renderFields ((k, v) :: fld2 :: flds2) (d + 1) ++
              '\n' :: (indentChars d ++ '\x7d' :: rest))) =
              '"' :: (escapeList k.data ++ ('"' :: (':' :: (' ' ::
                (renderJson v (d + 1) ++ (',' :: ('\n' ::
                  (renderFields (fld2 :: flds2) (d + 1) ++
                    '\n' :: (indentChars d ++ '\x7d' :: rest))))))))) := by
            have hri : '\n' :: (renderFields ((k, v) :: fld2 :: flds2) (d + 1) ++
                '\n' :: (indentChars d ++ '\x7d' :: rest)) =
                '\n' :: (indentChars (d + 1) ++ ('"' :: (escapeList k.data ++
                  ('"' :: (':' :: (' ' :: (renderJson v (d + 1) ++
                    (',' :: ('\n' :: (renderFields (fld2 :: flds2) (d + 1) ++
                      '\n' :: (indentChars d ++ '\x7d' :: rest))))))))))) := by
              simp [renderFields]
            rw [hri, skipWs_nl_indent, skipWs_cons_not _ _ (by decide)]
          rw [hskip]
          show (match parseStrBody (escapeList k.data ++ ('"' :: (':' :: (' ' ::
              (renderJson v (d + 1) ++ (',' :: ('\n' ::
                (renderFields (fld2 :: flds2) (d + 1) ++
                  '\n' :: (indentChars d ++ '\x7d' :: rest)))))))))  with
            | none => none
            | some (key, rest1) =>
              match skipWs rest1 with
              | ':' :: rest2 =>
                (match parseVal f rest2 with
                 | none => none
                 | some (w, rest3) =>
                   match skipWs rest3 with
                   | ',' :: rest4 =>
                     (parseFields f rest4).map
                       (fun p : List (String × Json) × List Char =>
                         ((String.mk key, w) :: p.1, p.2))
                   | '\x7d' :: rest4 => some ([(String.mk key, w)], rest4)
                   | _ => none)
              | _ => none) = some ((k, v) :: fld2 :: flds2, rest)
          rw [parseStrBody_escape k.data _]
          show (match skipWs (':' :: (' ' :: (renderJson v (d + 1) ++
              (',' :: ('\n' :: (renderFields (fld2 :: flds2) (d + 1) ++
                '\n' :: (indentChars d ++ '\x7d' :: rest))))))) with
            | ':' :: rest2 =>
              (match parseVal f rest2 with
               | none => none
               | some (w, rest3) =>
                 match skipWs rest3 with
                 | ',' :: rest4 =>
                   (parseFields f rest4).map
                     (fun p : List (String × Json) × List Char =>
                       ((String.mk k.data, w) :: p.1, p.2))
                 | '\x7d' :: rest4 => some ([(String.mk k.data, w)], rest4)
                 | _ => none)
            | _ => none) = some ((k, v) :: fld2 :: flds2, rest)
          rw [skipWs_cons_not _ _ (by decide)]
          have hpv : parseVal f (' ' :: (renderJson v (d + 1) ++
              (',' :: ('\n' :: (renderFields (fld2 :: flds2) (d + 1) ++
                '\n' :: (indentChars d ++ '\x7d' :: rest)))))) =
              some (v, ',' :: ('\n' :: (renderFields (fld2 :: flds2) (d + 1) ++
                '\n' :: (indentChars d ++ '\x7d' :: rest)))) := by
            have hsw : skipWs (' ' :: (renderJson v (d + 1) ++
                (',' :: ('\n' :: (renderFields (fld2 :: flds2) (d + 1) ++
                  '\n' :: (indentChars d ++ '\x7d' :: rest)))))) =
                skipWs (renderJson v (d + 1) ++
                  (',' :: ('\n' :: (renderFields (fld2 :: flds2) (d + 1) ++
                    '\n' :: (indentChars d ++ '\x7d' :: rest))))) :=
              skipWs_cons_ws _ _ (by decide)
            rw [parseVal_ws_congr f _ _ hsw]
            exact hPV (d + 1) _ f hfv (goodRest_comma _)
          show (match parseVal f (' ' :: (renderJson v (d + 1) ++
              (',' :: ('\n' :: (renderFields (fld2 :: flds2) (d + 1) ++
                '\n' :: (indentChars d ++ '\x7d' :: rest)))))) with
            | none => none
            | some (w, rest3) =>
              match skipWs rest3 with
              | ',' :: rest4 =>
                (parseFields f rest4).map
                  (fun p : List (String × Json) × List Char =>
                    ((String.mk k.data, w) :: p.1, p.2))
              | '\x7d' :: rest4 => some ([(String.mk k.data, w)], rest4)
              | _ => none) = some ((k, v) :: fld2 :: flds2, rest)
          rw [hpv]
          show (match skipWs (',' :: ('\n' :: (renderFields (fld2 :: flds2) (d + 1) ++
              '\n' :: (indentChars d ++ '\x7d' :: rest)))) with
            | ',' :: rest4 =>
              (parseFields f rest4).map
                (fun p : List (String × Json) × List Char =>
                  ((String.mk k.data, v) :: p.1, p.2))
            | '\x7d' :: rest4 => some ([(String.mk k.data, v)], rest4)
            | _ => none) = some ((k, v) :: fld2 :: flds2, rest)
          rw [skipWs_cons_not _ _ (by decide)]
          show (parseFields f ('\n' :: (renderFields (fld2 :: flds2) (d + 1) ++
              '\n' :: (indentChars d ++ '\x7d' :: rest)))).map
              (fun p : List (String × Json) × List Char =>
                ((String.mk k.data, v) :: p.1, p.2)) =
            some ((k, v) :: fld2 :: flds2, rest)
          rw [hPF2]
          show some ((String.mk k.data, v) :: fld2 :: flds2, rest) =
            some ((k, v) :: fld2 :: flds2, rest)
          rw [string_mk_data]

theorem fuelNeed_le_render : ∀ n : Nat,
    (∀ j : Json, fuelNeed j ≤ n → ∀ d,
      fuelNeed j ≤ (renderJson j d).length + 1) ∧
    (∀ es : List Json, itemsFuel es ≤ n → ∀ d,
      itemsFuel es ≤ (renderItems es d).length + 2) ∧
    (∀ fs : List (String × Json), fieldsFuel fs ≤ n → ∀ d,
      fieldsFuel fs ≤ (renderFields fs d).length + 2) := by
  intro n
  induction n using Nat.strong_induction_on with
  | _ n ih =>
  refine ⟨?_, ?_, ?_⟩
  · intro j hj d
    match j with
    | Json.str s => simp [fuelNeed]
    | Json.num m => simp [fuelNeed]
    | Json.arr [] => simp [fuelNeed, renderJson]
    | Json.arr (e :: es) =>
      have hlt : itemsFuel (e :: es) < n := by
        simp only [fuelNeed] at hj
        omega
      have hb := (ih (itemsFuel (e :: es)) hlt).2.1 (e :: es) (le_refl _) (d + 1)
      simp only [fuelNeed, renderJson, List.length_cons, List.length_append,
        indentChars, List.length_replicate]
      simp at hb ⊢
      omega
    | Json.obj [] => simp [fuelNeed, renderJson]
    | Json.obj (fld :: flds) =>
      have hlt : fieldsFuel (fld :: flds) < n := by
        simp only [fuelNeed] at hj
        omega
      have hb := (ih (fieldsFuel (fld :: flds)) hlt).2.2 (fld :: flds) (le_refl _) (d + 1)
      simp only [fuelNeed, renderJson, List.length_cons, List.length_append,
        indentChars, List.length_replicate]
      simp at hb ⊢
      omega
  · intro es hes d
    match es with
    | [] => simp [itemsFuel]
    | [e] =>
      have hlt : fuelNeed e < n := by
        simp only [itemsFuel] at hes
        omega
      have hb := (ih (fuelNeed e) hlt).1 e (le_refl _) d
      simp only [itemsFuel, renderItems, List.length_append, indentChars,
        List.length_replicate]
      simp at hb ⊢
      omega
    | e :: e2 :: es2 =>
      have hlt : fuelNeed e < n := by
        simp only [itemsFuel] at hes
        omega
      have hlt2 : itemsFuel (e2 :: es2) < n := by
        simp only [itemsFuel] at hes ⊢
        omega
      have hb := (ih (fuelNeed e) hlt).1 e (le_refl _) d
      have hb2 := (ih (itemsFuel (e2 :: es2)) hlt2).2.1 (e2 :: es2) (le_refl _) d
      simp only [itemsFuel, renderItems, List.length_append, List.length_cons,
        indentChars, List.length_replicate]
      simp only [itemsFuel] at hb2
      simp at hb hb2 ⊢
      omega
  · intro fs hfs d
    match fs with
    | [] => simp [fieldsFuel]
    | [(k, v)] =>
      have hlt : fuelNeed v < n := by
        simp only [fieldsFuel] at hfs
        omega
      have hb := (ih (fuelNeed v) hlt).1 v (le_refl _) d
      simp only [fieldsFuel, renderFields, List.length_append, List.length_cons,
        indentChars, List.length_replicate]
      simp at hb ⊢
      omega
    | (k, v) :: fld2 :: flds2 =>
      have hlt : fuelNeed v < n := by
        simp only [fieldsFuel] at hfs
        omega
      have hlt2 : fieldsFuel (fld2 :: flds2) < n := by
        simp only [fieldsFuel] at hfs ⊢
        omega
      have hb := (ih (fuelNeed v) hlt).1 v (le_refl _) d
      have hb2 := (ih (fieldsFuel (fld2 :: flds2)) hlt2).2.2 (fld2 :: flds2) (le_refl _) d
      simp only [fieldsFuel, renderFields, List.length_append, List.length_cons,
        indentChars, List.length_replicate]
      simp only [fieldsFuel] at hb2
      simp at hb hb2 ⊢
      omega

theorem parseJson_jsonStringify (j : Json) :
    parseJson (jsonStringify j) = some j := by
  unfold parseJson jsonStringify
  have hdata : (String.mk (renderJson j 0)).data = renderJson j 0 := rfl
  rw [hdata]
  have hfb := (fuelNeed_le_render (fuelNeed j)).1 j (le_refl _) 0
  have hparse := (parse_render_main (fuelNeed j)).1 j (le_refl _) 0 []
    ((renderJson j 0).length + 1) hfb trivial
  rw [List.append_nil] at hparse
  rw [hparse]
  rfl

/-- C8: `generateJSON` is idempotent under re-serialization — parsing its
output as JSON recovers exactly the document of the result, and serializing
that parsed document the same way yields a string identical to the original
output. -/
theorem C8_generateJSON_idempotent (r : AnalysisResult) :
    parseJson (generateJSON r) = some (resultToJson r) ∧
    (parseJson (generateJSON r)).map jsonStringify = some (generateJSON r) := by
  constructor
  · exact parseJson_jsonStringify (resultToJson r)
  · show (parseJson (jsonStringify (resultToJson r))).map jsonStringify =
      some (jsonStringify (resultToJson r))
    rw [parseJson_jsonStringify]
    rfl
